import Mathlib

/-!
# Project-scoped secret management of nf-faas-docker (handlers/secrets.go)

A shallow embedding of `handlers/secrets.go` together with theorems about it.

Conventions of the embedding

* Go `string` and `[]byte` are both byte sequences and the conversions
  `[]byte(s)` and `string(b)` copy them unchanged, so both are embedded as
  `String` and the two conversions are the identity.
* A Go `error` is embedded as its message (`String`); a nil-able error is an
  `Option String`; a pair `(value, error)` is an `Except String value`.
* A Go `map[string]T` is an association list read with `mapIndex` (the
  one-result index expression, which yields the zero value for an absent
  key) or `mapLookup` (the comma-ok form) and written with `mapAssign`.
* The orchestrator is reached through `SecretAPIClient`: a record of the four
  secret calls, each a transition over an arbitrary orchestrator state.
  Every call issued goes through one of the `call...` wrappers, which append
  the call to a ghost log carried in `World`.
* Declarations of package `handlers` that live outside `secrets.go`
  (`ProjectLabel`, `globalConfig`, `ProjectSpecificName`) and the library
  functions used (`json.Unmarshal`, `json.Marshal`, `opts.SecretOpt.Set`) are
  the fields of `Env`; the theorems hold for every value of them unless a
  hypothesis says otherwise.
* Theorems about the resolver state what they need of `opts.SecretOpt.Set`
  through `readsSource` and `parsesOption`: the option string built from a
  requested name is read back as it was written. `sampleSecretOptSet` is a
  decoder for which this holds on every name without separators.
-/

set_option autoImplicit false

namespace Handlers

/-- Decidable equality of `(value, error)` results. -/
instance instDecidableEqResult {ε α : Type} [DecidableEq ε] [DecidableEq α] :
    DecidableEq (Except ε α)
  | .ok a, .ok b => if h : a = b then isTrue (by rw [h]) else isFalse (by simpa using h)
  | .error a, .error b => if h : a = b then isTrue (by rw [h]) else isFalse (by simpa using h)
  | .ok _, .error _ => isFalse (by simp)
  | .error _, .ok _ => isFalse (by simp)

/-! ## Go maps -/

/-- Go map with string keys, as an association list (first binding wins). -/
abbrev GoMap (ν : Type) := List (String × ν)

/-- Comma-ok map read: the value bound to `k`, when there is one. -/
def mapLookup {ν : Type} : GoMap ν → String → Option ν
  | [], _ => none
  | (k, v) :: rest, key => if k = key then some v else mapLookup rest key

/-- Map index expression on a string-valued map: zero value when absent. -/
def mapIndex (m : GoMap String) (k : String) : String :=
  (mapLookup m k).getD ""

/-- Map assignment: binds `k` to `v`, dropping any previous binding of `k`. -/
def mapAssign {ν : Type} (m : GoMap ν) (k : String) (v : ν) : GoMap ν :=
  (k, v) :: m.filter (fun p => decide (p.1 ≠ k))

/-! ## Data model (docker `swarm` and faas-provider types) -/

/-- Package variable `openFaasSecretNameLabel`. -/
def openFaasSecretNameLabel : String := "com.openfaas.secret"

/-- Type `swarm.SecretSpec`: annotations (name, labels) and payload. -/
structure SecretSpec where
  Name : String
  Labels : GoMap String
  Data : String
  deriving DecidableEq, Repr

/-- Type `swarm.Secret`: identifier, version index and spec. -/
structure Secret where
  ID : String
  Version : Nat
  Spec : SecretSpec
  deriving DecidableEq, Repr

/-- Type `typesv1.Secret` as far as this file uses it: a (Name, Value) pair. -/
structure ApiSecret where
  Name : String
  Value : String
  deriving DecidableEq, Repr

/-- Type `swarm.SecretReferenceFileTarget`. -/
structure SecretReferenceFileTarget where
  Name : String
  UID : String
  GID : String
  Mode : Nat
  deriving DecidableEq, Repr

/-- Type `swarm.SecretReference`. -/
structure SecretReference where
  File : Option SecretReferenceFileTarget
  SecretID : String
  SecretName : String
  deriving DecidableEq, Repr

/-- Type `types.SecretListOptions`: the filter arguments, as (key, value) pairs. -/
structure SecretListOptions where
  Filters : List (String × String)
  deriving DecidableEq, Repr

/-- Method `filters.Args.Add`: the values of a key form a set. -/
def filtersAdd (args : List (String × String)) (key value : String) : List (String × String) :=
  if (key, value) ∈ args then args else args ++ [(key, value)]

/-! ## HTTP status codes -/

def StatusOK : Nat := 200
def StatusCreated : Nat := 201
def StatusBadRequest : Nat := 400
def StatusNotFound : Nat := 404
def StatusMethodNotAllowed : Nat := 405
def StatusInternalServerError : Nat := 500

/-! ## Environment: package globals and library functions -/

/-- What `secrets.go` uses from the rest of package `handlers` and from libraries. -/
structure Env where
  /-- Package constant `ProjectLabel`. -/
  ProjectLabel : String
  /-- Field `globalConfig.NFFaaSDockerProject`. -/
  NFFaaSDockerProject : String
  /-- Package function `ProjectSpecificName`. -/
  ProjectSpecificName : String → String
  /-- Library call `json.Unmarshal(body, &apiSecret)`. -/
  jsonUnmarshal : String → Except String ApiSecret
  /-- Library call `json.Marshal(results)`. -/
  jsonMarshal : List ApiSecret → Except String String
  /-- Library method `opts.SecretOpt.Set`: the reference it appends, or its error. -/
  secretOptSet : String → Except String SecretReference

/-! ## Orchestrator client and ghost call log -/

/-- One call on the orchestrator client. -/
inductive Call where
  | SecretList (options : SecretListOptions)
  | SecretCreate (spec : SecretSpec)
  | SecretRemove (id : String)
  | SecretUpdate (id : String) (version : Nat) (spec : SecretSpec)
  deriving DecidableEq, Repr

/-- Interface `client.SecretAPIClient` over an orchestrator state `σ`. -/
structure SecretAPIClient (σ : Type) where
  SecretList : SecretListOptions → σ → Except String (List Secret) × σ
  SecretCreate : SecretSpec → σ → Except String String × σ
  SecretRemove : String → σ → Option String × σ
  SecretUpdate : String → Nat → SecretSpec → σ → Option String × σ

/-- Orchestrator state together with the log of calls issued so far (oldest first). -/
structure World (σ : Type) where
  orch : σ
  calls : List Call

variable {σ : Type}

/-- Call `c.SecretList(ctx, options)`. -/
def callSecretList (c : SecretAPIClient σ) (options : SecretListOptions) (w : World σ) :
    Except String (List Secret) × World σ :=
  let r := c.SecretList options w.orch
  (r.1, ⟨r.2, w.calls ++ [Call.SecretList options]⟩)

/-- Call `c.SecretCreate(ctx, spec)`. -/
def callSecretCreate (c : SecretAPIClient σ) (spec : SecretSpec) (w : World σ) :
    Except String String × World σ :=
  let r := c.SecretCreate spec w.orch
  (r.1, ⟨r.2, w.calls ++ [Call.SecretCreate spec]⟩)

/-- Call `c.SecretRemove(ctx, id)`. -/
def callSecretRemove (c : SecretAPIClient σ) (id : String) (w : World σ) :
    Option String × World σ :=
  let r := c.SecretRemove id w.orch
  (r.1, ⟨r.2, w.calls ++ [Call.SecretRemove id]⟩)

/-- Call `c.SecretUpdate(ctx, id, version, spec)`. -/
def callSecretUpdate (c : SecretAPIClient σ) (id : String) (version : Nat) (spec : SecretSpec)
    (w : World σ) : Option String × World σ :=
  let r := c.SecretUpdate id version spec w.orch
  (r.1, ⟨r.2, w.calls ++ [Call.SecretUpdate id version spec]⟩)

/-! ## Secret directory -/

/-- Loop of `getSecretsWithLabel` (lines 85-89): appends the matching secrets. -/
def getSecretsWithLabelLoop (labelName labelValue : String) :
    List Secret → List Secret → List Secret
  | [], filteredSecrets => filteredSecrets
  | secret :: rest, filteredSecrets =>
    if mapIndex secret.Spec.Labels labelName = labelValue then
      getSecretsWithLabelLoop labelName labelValue rest (filteredSecrets ++ [secret])
    else
      getSecretsWithLabelLoop labelName labelValue rest filteredSecrets

/-- Function `getSecretsWithLabel` (lines 77-92). -/
def getSecretsWithLabel (c : SecretAPIClient σ) (labelName labelValue : String) (w : World σ) :
    Except String (List Secret) × World σ :=
  match callSecretList c ⟨[]⟩ w with
  | (.error secretListErr, w1) => (.error secretListErr, w1)
  | (.ok secrets, w1) => (.ok (getSecretsWithLabelLoop labelName labelValue secrets []), w1)

/-- Result triple of `getSecretWithName`: `(secret, status, err)`. -/
structure FoundSecret where
  secret : Option Secret
  status : Nat
  err : Option String
  deriving DecidableEq, Repr

/-- Loop and final return of `getSecretWithName` (lines 100-115). -/
def getSecretWithNameLoop (e : Env) (name : String) : List Secret → FoundSecret
  | [] => ⟨none, StatusNotFound, some ("unable to found secret with name: " ++ name)⟩
  | secret :: rest =>
    if mapIndex secret.Spec.Labels openFaasSecretNameLabel = name then
      if mapIndex secret.Spec.Labels e.ProjectLabel = e.NFFaaSDockerProject then
        ⟨some secret, StatusOK, none⟩
      else
        ⟨none, StatusInternalServerError,
          some ("found secret with name: " ++ name ++ ", but it doesn't have label: "
            ++ e.ProjectLabel ++ " == " ++ e.NFFaaSDockerProject)⟩
    else
      getSecretWithNameLoop e name rest

/-- Function `getSecretWithName` (lines 94-116). -/
def getSecretWithName (e : Env) (c : SecretAPIClient σ) (name : String) (w : World σ) :
    FoundSecret × World σ :=
  match callSecretList c ⟨[]⟩ w with
  | (.error secretListErr, w1) => (⟨none, StatusInternalServerError, some secretListErr⟩, w1)
  | (.ok secrets, w1) => (getSecretWithNameLoop e name secrets, w1)

/-! ## CRUD operation handlers -/

/-- Result triple of an operation handler: `(responseStatus, responseBody, err)`. -/
structure Response where
  status : Nat
  body : Option String
  err : Option String
  deriving DecidableEq, Repr

/-- Loop of `getSecrets` (lines 131-133): one (Name, Value) pair per secret. -/
def getSecretsLoop : List Secret → List ApiSecret → List ApiSecret
  | [], results => results
  | s :: rest, results =>
    getSecretsLoop rest
      (results ++ [⟨mapIndex s.Spec.Labels openFaasSecretNameLabel, s.Spec.Data⟩])

/-- Function `getSecrets` (lines 118-144). -/
def getSecrets (e : Env) (c : SecretAPIClient σ) (_body : String) (w : World σ) :
    Response × World σ :=
  match getSecretsWithLabel c e.ProjectLabel e.NFFaaSDockerProject w with
  | (.error err, w1) =>
    (⟨StatusInternalServerError, none,
      some ("cannot get secrets with label: " ++ e.ProjectLabel ++ " == "
        ++ e.NFFaaSDockerProject ++ " in secretGetHandler: " ++ err)⟩, w1)
  | (.ok secrets, w1) =>
    match e.jsonMarshal (getSecretsLoop secrets []) with
    | .error marshalErr =>
      (⟨StatusInternalServerError, none,
        some ("error marshalling secrets to json: " ++ marshalErr)⟩, w1)
    | .ok resultsJSON => (⟨StatusOK, some resultsJSON, none⟩, w1)

/-- Secret spec built by `createNewSecret` (lines 157-166). -/
def createSpec (e : Env) (apiSecret : ApiSecret) : SecretSpec :=
  { Name := e.ProjectSpecificName apiSecret.Name
    Labels := mapAssign (mapAssign [] e.ProjectLabel e.NFFaaSDockerProject)
      openFaasSecretNameLabel apiSecret.Name
    Data := apiSecret.Value }

/-- Function `createNewSecret` (lines 146-175). -/
def createNewSecret (e : Env) (c : SecretAPIClient σ) (body : String) (w : World σ) :
    Response × World σ :=
  match e.jsonUnmarshal body with
  | .error unmarshalErr =>
    (⟨StatusBadRequest, none,
      some ("error unmarshalling body to json in secretPostHandler: " ++ unmarshalErr)⟩, w)
  | .ok apiSecret =>
    match callSecretCreate c (createSpec e apiSecret) w with
    | (.error createSecretErr, w1) =>
      (⟨StatusInternalServerError, none,
        some ("error creating secret in secretPostHandler: " ++ createSecretErr)⟩, w1)
    | (.ok _, w1) => (⟨StatusCreated, none, none⟩, w1)

/-- Secret spec built by `updateSecret` (lines 197-206). -/
def updateSpec (e : Env) (apiSecret : ApiSecret) : SecretSpec :=
  { Name := apiSecret.Name
    Labels := mapAssign (mapAssign [] e.ProjectLabel e.NFFaaSDockerProject)
      openFaasSecretNameLabel apiSecret.Name
    Data := apiSecret.Value }

/-- Function `updateSecret` (lines 177-218); no handler dispatches to it. -/
def updateSecret (e : Env) (c : SecretAPIClient σ) (body : String) (w : World σ) :
    Response × World σ :=
  match e.jsonUnmarshal body with
  | .error unmarshalErr =>
    (⟨StatusBadRequest, none,
      some ("error unmarshaling secret in secretPutHandler: " ++ unmarshalErr)⟩, w)
  | .ok apiSecret =>
    match getSecretWithName e c apiSecret.Name w with
    | (⟨_, status, some getSecretErr⟩, w1) =>
      (⟨status, none,
        some ("cannot get secret with name: " ++ apiSecret.Name ++ ". Error: "
          ++ getSecretErr)⟩, w1)
    | (⟨none, _, none⟩, w1) =>
      -- nil dereference of foundSecret; getSecretWithName never returns this shape
      (⟨0, none, some "nil pointer dereference"⟩, w1)
    | (⟨some foundSecret, _, none⟩, w1) =>
      match callSecretUpdate c foundSecret.ID foundSecret.Version (updateSpec e apiSecret) w1 with
      | (some updateSecretErr, w2) =>
        (⟨StatusInternalServerError, none,
          some ("couldn't update secret (name: " ++ apiSecret.Name ++ ", ID: "
            ++ foundSecret.ID ++ ") because of error: " ++ updateSecretErr)⟩, w2)
      | (none, w2) => (⟨StatusOK, none, none⟩, w2)

/-- Function `deleteSecret` (lines 220-251). -/
def deleteSecret (e : Env) (c : SecretAPIClient σ) (body : String) (w : World σ) :
    Response × World σ :=
  match e.jsonUnmarshal body with
  | .error unmarshalErr =>
    (⟨StatusBadRequest, none,
      some ("error unmarshaling secret in secretDeleteHandler: " ++ unmarshalErr)⟩, w)
  | .ok apiSecret =>
    match getSecretWithName e c apiSecret.Name w with
    | (⟨_, status, some getSecretErr⟩, w1) =>
      (⟨status, none,
        some ("cannot get secret with name: " ++ apiSecret.Name
          ++ ", which you want to remove. Error: " ++ getSecretErr)⟩, w1)
    | (⟨none, _, none⟩, w1) =>
      -- nil dereference of foundSecret; getSecretWithName never returns this shape
      (⟨0, none, some "nil pointer dereference"⟩, w1)
    | (⟨some foundSecret, _, none⟩, w1) =>
      match callSecretRemove c foundSecret.ID w1 with
      | (some removeSecretErr, w2) =>
        (⟨StatusInternalServerError, none,
          some ("error trying to remove secret (name: " ++ "\x60" ++ apiSecret.Name ++ "\x60"
            ++ ", ID: " ++ "\x60" ++ foundSecret.ID ++ "\x60" ++ "): " ++ removeSecretErr)⟩, w2)
      | (none, w2) => (⟨StatusOK, none, none⟩, w2)

/-! ## HTTP handler -/

/-- What the handler reads of `*http.Request`: the method and the outcome of
`ioutil.ReadAll(r.Body)`. A request of the HTTP server always has a body to read. -/
structure Request where
  Method : String
  readBody : Except String String

/-- Interface `http.ResponseWriter` as used here: the error `w.Write` returns. -/
structure ResponseWriter where
  Write : String → Option String

/-- One call on the response writer. -/
inductive WriterCall where
  | WriteHeader (status : Nat)
  | Write (body : String)
  deriving DecidableEq, Repr

/-- Method switch of the handler (lines 36-56); the zero `Response` when no case matches. -/
def dispatch (e : Env) (c : SecretAPIClient σ) (method body : String) (w : World σ) :
    Response × World σ :=
  if method = "GET" then getSecrets e c body w
  else if method = "POST" then createNewSecret e c body w
  else if method = "PUT" then
    (⟨StatusMethodNotAllowed, none,
      some "nf-faas-docker is unable to update secrets, delete and re-create or use a new name"⟩,
      w)
  else if method = "DELETE" then deleteSecret e c body w
  else (⟨0, none, none⟩, w)

/-- Handler returned by `MakeSecretsHandler` (lines 23-75): the calls it makes on the
response writer, in order, and the world it leaves. Logging is not modelled. -/
def MakeSecretsHandler (e : Env) (c : SecretAPIClient σ) (rw : ResponseWriter) (r : Request)
    (w : World σ) : List WriterCall × World σ :=
  match r.readBody with
  | .error _ => ([WriterCall.WriteHeader StatusInternalServerError], w)
  | .ok body =>
    match dispatch e c r.Method body w with
    | (⟨responseStatus, _, some _⟩, w1) => ([WriterCall.WriteHeader responseStatus], w1)
    | (⟨responseStatus, none, none⟩, w1) => ([WriterCall.WriteHeader responseStatus], w1)
    | (⟨responseStatus, some responseBody, none⟩, w1) =>
      match rw.Write responseBody with
      | some _ =>
        ([WriterCall.Write responseBody, WriterCall.WriteHeader StatusInternalServerError], w1)
      | none => ([WriterCall.Write responseBody, WriterCall.WriteHeader responseStatus], w1)

/-! ## Secret reference resolver -/

/-- First loop of `makeSecretsArray` (lines 263-270): parses one option per requested
name and records the physical-to-logical name map. -/
def setLoop (e : Env) :
    List String → List SecretReference → GoMap String →
      Except String (List SecretReference × GoMap String)
  | [], secretOpts, originalSecretNames => .ok (secretOpts, originalSecretNames)
  | secret :: rest, secretOpts, originalSecretNames =>
    let secretSpec :=
      "source=" ++ e.ProjectSpecificName secret ++ ",target=/var/openfaas/secrets/" ++ secret
    match e.secretOptSet secretSpec with
    | .error err => .error err
    | .ok opt =>
      setLoop e rest (secretOpts ++ [opt])
        (mapAssign originalSecretNames (e.ProjectSpecificName secret) secret)

/-- Second loop (lines 277-281): one name filter per parsed option. -/
def filterArgs (secretOpts : List SecretReference) : List (String × String) :=
  secretOpts.foldl (fun args opt => filtersAdd args "name" opt.SecretName) []

/-- Third loop (lines 291-296): identifier by secret-name label, and the labels seen. -/
def foundLoop : List Secret → GoMap String → List String → GoMap String × List String
  | [], foundSecrets, foundSecretNames => (foundSecrets, foundSecretNames)
  | secret :: rest, foundSecrets, foundSecretNames =>
    foundLoop rest
      (mapAssign foundSecrets (mapIndex secret.Spec.Labels openFaasSecretNameLabel) secret.ID)
      (foundSecretNames ++ [mapIndex secret.Spec.Labels openFaasSecretNameLabel])

/-- Verb `%v` of package fmt on a slice of strings. -/
def fmtStrings (xs : List String) : String :=
  "[" ++ " ".intercalate xs ++ "]"

/-- Fourth loop (lines 300-319): resolves each parsed option in order. -/
def resolveLoop (originalSecretNames foundSecrets : GoMap String) (foundSecretNames : List String) :
    List SecretReference → GoMap Bool → List SecretReference →
      Except String (List SecretReference)
  | [], _, values => .ok values
  | opts :: rest, requestedSecrets, values =>
    let actualSwarmSecretName := opts.SecretName
    let originalSecretName := mapIndex originalSecretNames actualSwarmSecretName
    match mapLookup requestedSecrets actualSwarmSecretName with
    | some _ =>
      .error ("duplicate secret target for "
        ++ mapIndex originalSecretNames actualSwarmSecretName ++ " not allowed")
    | none =>
      match mapLookup foundSecrets originalSecretName with
      | none =>
        .error ("secret not found: " ++ mapIndex originalSecretNames actualSwarmSecretName
          ++ "; possible choices:\n" ++ fmtStrings foundSecretNames)
      | some id =>
        resolveLoop originalSecretNames foundSecrets foundSecretNames rest
          (mapAssign requestedSecrets actualSwarmSecretName true)
          (values ++ [{ opts with SecretID := id }])

/-- Function `makeSecretsArray` (lines 253-322). -/
def makeSecretsArray (e : Env) (c : SecretAPIClient σ) (secretNames : List String)
    (w : World σ) : Except String (List SecretReference) × World σ :=
  if secretNames.length = 0 then (.ok [], w)
  else
    match setLoop e secretNames [] [] with
    | .error err => (.error err, w)
    | .ok (secretOpts, originalSecretNames) =>
      match callSecretList c ⟨filterArgs secretOpts⟩ w with
      | (.error err, w1) => (.error err, w1)
      | (.ok secrets, w1) =>
        let found := foundLoop secrets [] []
        (resolveLoop originalSecretNames found.1 found.2 secretOpts [] [], w1)

/-! ## Orchestrator model

An executable orchestrator for the theorems that speak about successive
operations: it stores the secrets in creation order, rejects a create whose
secret name is already stored, and removes by identifier. The name filter of
a listing matches by name prefix. -/

/-- An identifier longer than every identifier in use. -/
def freshID (secrets : List Secret) : String :=
  String.mk (List.replicate (secrets.foldl (fun n s => max n s.ID.length) 0 + 1) 'x')

/-- Whether `p` is a prefix of `l`. -/
def startsWith : List Char → List Char → Bool
  | [], _ => true
  | _ :: _, [] => false
  | a :: p, b :: l => a = b && startsWith p l

/-- Whether a stored secret passes the name filters of a listing request. -/
def passesFilters (filters : List (String × String)) (s : Secret) : Bool :=
  let names := (filters.filter (fun kv => decide (kv.1 = "name"))).map Prod.snd
  names.isEmpty || names.any (fun n => startsWith n.data s.Spec.Name.data)

/-- The model orchestrator as a client over the list of stored secrets. -/
def swarmClient : SecretAPIClient (List Secret) where
  SecretList := fun options st => (.ok (st.filter (passesFilters options.Filters)), st)
  SecretCreate := fun spec st =>
    if st.any (fun s => decide (s.Spec.Name = spec.Name)) then
      (.error ("secret " ++ spec.Name ++ " already exists"), st)
    else
      (.ok (freshID st), st ++ [⟨freshID st, 0, spec⟩])
  SecretRemove := fun id st =>
    if st.any (fun s => decide (s.ID = id)) then
      (none, st.filter (fun s => decide (s.ID ≠ id)))
    else
      (some ("secret " ++ id ++ " not found"), st)
  SecretUpdate := fun id version spec st =>
    if st.any (fun s => decide (s.ID = id ∧ s.Version = version)) then
      (none, st.map (fun s => if s.ID = id then ⟨id, version + 1, spec⟩ else s))
    else
      (some ("secret " ++ id ++ " not found or out of sequence"), st)

/-- A client whose listing call always answers with the same secrets and whose
mutating calls succeed without effect. -/
def fixedClient (secrets : List Secret) : SecretAPIClient Unit where
  SecretList := fun _ st => (.ok secrets, st)
  SecretCreate := fun _ st => (.ok "", st)
  SecretRemove := fun _ st => (none, st)
  SecretUpdate := fun _ _ _ st => (none, st)

/-! ## A sample environment -/

/-- Splits at every `sep`; `cur` is the field read so far. -/
def splitChars (sep : Char) : List Char → List Char → List (List Char)
  | [], cur => [cur]
  | ch :: rest, cur =>
    if ch = sep then cur :: splitChars sep rest [] else splitChars sep rest (cur ++ [ch])

/-- Cuts at the first `=`, as `strings.Cut(field, "=")`. -/
def cutEq : List Char → Option (List Char × List Char)
  | [] => none
  | ch :: rest =>
    if ch = '=' then some ([], rest)
    else (cutEq rest).map (fun kv => (ch :: kv.1, kv.2))

/-- Field loop of the sample option decoder, after the loop over the fields in
`opts.SecretOpt.Set`: each field is cut at its first `=`, the key is compared in lower
case, and a field assigns its value, so that a later field of a key overrides an earlier
one. -/
def sampleSetFields : List (List Char) → SecretReference → Except String SecretReference
  | [], options => .ok options
  | field :: rest, options =>
    match cutEq field with
    | none => .error ("invalid field '" ++ String.mk field ++ "' must be a key=value pair")
    | some (key, val) =>
      let k := String.mk (key.map Char.toLower)
      if key = [] then
        .error ("invalid field '" ++ String.mk field ++ "' must be a key=value pair")
      else if k = "source" ∨ k = "src" then
        sampleSetFields rest { options with SecretName := String.mk val }
      else if k = "target" then
        sampleSetFields rest
          { options with File := options.File.map (fun f => { f with Name := String.mk val }) }
      else if k = "uid" then
        sampleSetFields rest
          { options with File := options.File.map (fun f => { f with UID := String.mk val }) }
      else if k = "gid" then
        sampleSetFields rest
          { options with File := options.File.map (fun f => { f with GID := String.mk val }) }
      else
        .error ("invalid field in secret request: " ++ String.mk key)

/-- A sample decoder standing for `opts.SecretOpt.Set` of docker/cli on one-line input
without quotes: comma-separated `key=value` fields (`source`/`src`, `target`, `uid`, `gid`),
or a single bare name. Input with a quote or a line break, and the `mode` key, are
outside the sample and rejected. -/
def sampleSecretOptSet (value : String) : Except String SecretReference :=
  if value.data.any (fun ch => ch = '"' || ch = '\n' || ch = '\r') then
    .error "quoted or multi-line input"
  else if value.data = [] then .error "EOF"
  else
    let fields := splitChars ',' value.data []
    let options : SecretReference := ⟨some ⟨"", "0", "0", 0o444⟩, "", ""⟩
    match fields with
    | [single] =>
      if single.any (fun ch => ch = '=') then
        match sampleSetFields fields options with
        | .error err => .error err
        | .ok o =>
          if o.SecretName = "" then .error "source is required"
          else if (o.File.map (fun f => f.Name)) = some "" then
            .ok { o with File := o.File.map (fun f => { f with Name := o.SecretName }) }
          else .ok o
      else
        .ok { options with
          File := options.File.map (fun f => { f with Name := String.mk single })
          SecretName := String.mk single }
    | _ =>
      match sampleSetFields fields options with
      | .error err => .error err
      | .ok o =>
        if o.SecretName = "" then .error "source is required"
        else if (o.File.map (fun f => f.Name)) = some "" then
          .ok { o with File := o.File.map (fun f => { f with Name := o.SecretName }) }
        else .ok o

/-- A sample decoder standing for `json.Unmarshal` into a (Name, Value) pair: the body
is `Name` and `Value` separated by the first `=`; a body without `=` is malformed. -/
def sampleUnmarshal (body : String) : Except String ApiSecret :=
  match cutEq body.data with
  | none => .error "invalid character"
  | some (n, v) => .ok ⟨String.mk n, String.mk v⟩

/-- A sample encoder standing for `json.Marshal`: the pairs as `Name=Value`, joined by `;`. -/
def sampleMarshal (results : List ApiSecret) : Except String String :=
  .ok (";".intercalate (results.map (fun a => a.Name ++ "=" ++ a.Value)))

/-- A sample environment for project `project`: project label key `project`, physical
name `project_name`. -/
def sampleEnv (project : String) : Env where
  ProjectLabel := "project"
  NFFaaSDockerProject := project
  ProjectSpecificName := fun name => project ++ "_" ++ name
  jsonUnmarshal := sampleUnmarshal
  jsonMarshal := sampleMarshal
  secretOptSet := sampleSecretOptSet

/-! ## Vocabulary of the theorems -/

/-- Label test of `getSecretsWithLabel`, as a predicate on a listed secret. -/
def hasLabel (labelName labelValue : String) (s : Secret) : Bool :=
  decide (mapIndex s.Spec.Labels labelName = labelValue)

/-- The identifiers passed to `SecretRemove` in a call log, in order. -/
def removeCalls : List Call → List String
  | [] => []
  | Call.SecretRemove id :: rest => id :: removeCalls rest
  | _ :: rest => removeCalls rest

/-- The (Name, Value) pair `getSecrets` reports for a secret. -/
def toApiSecret (s : Secret) : ApiSecret :=
  ⟨mapIndex s.Spec.Labels openFaasSecretNameLabel, s.Spec.Data⟩

/-- Naming invariant of a project on the stored secrets: every secret that carries the
project's label is stored under the project-specific name of its secret-name label. -/
def ProjectNamed (e : Env) (st : List Secret) : Prop :=
  ∀ s ∈ st, mapIndex s.Spec.Labels e.ProjectLabel = e.NFFaaSDockerProject →
    s.Spec.Name = e.ProjectSpecificName (mapIndex s.Spec.Labels openFaasSecretNameLabel)

/-- A listing of one secret that carries the physical name and secret-name label of
secret n of project p2, but the project label of project p1. -/
def foreignListing : List Secret :=
  [⟨"id1", 0, ⟨"p2_n", [("com.openfaas.secret", "n"), ("project", "p1")], "v"⟩⟩]

/-- A listing of one secret that carries no label at all. -/
def unlabelledListing : List Secret :=
  [⟨"id1", 0, ⟨"x", [], "v"⟩⟩]

/-- Two stored secrets with secret-name label n: the first of project p1, the second of
project p2. -/
def contestedListing : List Secret :=
  [⟨"id1", 0, ⟨"p1_n", [("com.openfaas.secret", "n"), ("project", "p1")], "v"⟩⟩,
   ⟨"id2", 0, ⟨"p2_n", [("com.openfaas.secret", "n"), ("project", "p2")], "w"⟩⟩]

/-- Two stored secrets of project p2 that both carry secret-name label n. -/
def doubledListing : List Secret :=
  [⟨"id1", 0, ⟨"p2_n", [("com.openfaas.secret", "n"), ("project", "p2")], "v"⟩⟩,
   ⟨"id2", 0, ⟨"other", [("com.openfaas.secret", "n"), ("project", "p2")], "w"⟩⟩]

/-- The option string `makeSecretsArray` hands to `Set` for a requested name (line 264). -/
def optionString (e : Env) (secret : String) : String :=
  "source=" ++ e.ProjectSpecificName secret ++ ",target=/var/openfaas/secrets/" ++ secret

/-- The reference `Set` appends for a requested name (an empty reference if `Set` fails). -/
def parseOne (e : Env) (secret : String) : SecretReference :=
  match e.secretOptSet (optionString e secret) with
  | .ok opt => opt
  | .error _ => ⟨none, "", ""⟩

/-- Whether `Set`, when it accepts the option string of a requested name, reads the source
key as it was written: the project-specific name. -/
def readsSource (e : Env) (secret : String) : Bool :=
  match e.secretOptSet (optionString e secret) with
  | .ok opt => decide (opt.SecretName = e.ProjectSpecificName secret)
  | .error _ => true

/-- Whether `Set` accepts the option string of a requested name and reads source and target
as they were written; this is what a name free of option-syntax separators gives. -/
def parsesOption (e : Env) (secret : String) : Bool :=
  match e.secretOptSet (optionString e secret) with
  | .ok opt =>
    decide (opt.SecretName = e.ProjectSpecificName secret
      ∧ opt.File.map (fun f => f.Name) = some ("/var/openfaas/secrets/" ++ secret))
  | .error _ => false

/-- The map `originalSecretNames` after the first loop over the requested names. -/
def recordNames (e : Env) (secretNames : List String) (originalSecretNames : GoMap String) :
    GoMap String :=
  secretNames.foldl (fun m n => mapAssign m (e.ProjectSpecificName n) n) originalSecretNames

/-- The map `requestedSecrets` after the fourth loop has passed the options `l`. -/
def markAll (l : List SecretReference) (requestedSecrets : GoMap Bool) : GoMap Bool :=
  l.foldl (fun m o => mapAssign m o.SecretName true) requestedSecrets

/-- The reference the fourth loop appends for a parsed option. -/
def withID (originalSecretNames foundSecrets : GoMap String) (o : SecretReference) :
    SecretReference :=
  { o with
    SecretID := (mapLookup foundSecrets (mapIndex originalSecretNames o.SecretName)).getD "" }

/-- The secret-name labels of a listing, in listing order. -/
def nameLabels (secrets : List Secret) : List String :=
  secrets.map (fun s => mapIndex s.Spec.Labels openFaasSecretNameLabel)

/-- The last listed secret that carries a secret-name label. -/
def lastCarrier (secrets : List Secret) (name : String) : Option Secret :=
  secrets.reverse.find? (hasLabel openFaasSecretNameLabel name)

/-- The filter arguments of the listing request: one name filter per physical name. -/
def nameFilters (e : Env) (secretNames : List String) : List (String × String) :=
  secretNames.foldl (fun args n => filtersAdd args "name" (e.ProjectSpecificName n)) []

/-- A listing of one secret, stored as b, that carries no secret-name label. -/
def strayListing : List Secret :=
  [⟨"id9", 0, ⟨"b", [], "v"⟩⟩]

/-- A listing with a secret that carries the secret-name label `a,source=b` and a secret,
stored as b, without secret-name label. -/
def injectedListing : List Secret :=
  [⟨"id1", 0, ⟨"p_a,source=b", [("com.openfaas.secret", "a,source=b"), ("project", "p")], "v"⟩⟩,
   ⟨"id9", 0, ⟨"b", [], "v"⟩⟩]

/-- The stored secrets after project acme created the secret db-pass. -/
def acmeListing : List Secret :=
  [⟨"x", 0, ⟨"acme_db-pass", [("com.openfaas.secret", "db-pass"), ("project", "acme")],
    "s3cr3t"⟩⟩]

/-- Whether a string is free of the characters that separate or quote fields in the
option syntax. -/
def separatorFree (s : String) : Bool :=
  s.data.all (fun ch => !(ch = ',' || ch = '"' || ch = '\n' || ch = '\r'))

/-- The world after project p2_n alone created its secret n in the empty orchestrator
model. -/
def foreignOnlyWorld : World (List Secret) :=
  (createNewSecret (sampleEnv "p2_n") swarmClient "n=w" ⟨[], []⟩).2

/-- The world after project p2 created its secret n and then project p2_n created its
secret n. -/
def ownAndForeignWorld : World (List Secret) :=
  (createNewSecret (sampleEnv "p2_n") swarmClient "n=w"
    (createNewSecret (sampleEnv "p2") swarmClient "n=v" ⟨[], []⟩).2).2

/-- The world after project p created its secret a and then project p_a created its
secret a. -/
def prefixWorld : World (List Secret) :=
  (createNewSecret (sampleEnv "p_a") swarmClient "a=w"
    (createNewSecret (sampleEnv "p") swarmClient "a=v" ⟨[], []⟩).2).2

/-! ## Theorems: secret directory -/

theorem getSecretsWithLabelLoop_eq (labelName labelValue : String) (secrets acc : List Secret) :
    getSecretsWithLabelLoop labelName labelValue secrets acc
      = acc ++ secrets.filter (hasLabel labelName labelValue) := by
  induction secrets generalizing acc with
  | nil => simp [getSecretsWithLabelLoop]
  | cons s rest ih =>
    by_cases h : mapIndex s.Spec.Labels labelName = labelValue
    · simp [getSecretsWithLabelLoop, h, ih, hasLabel]
    · simp [getSecretsWithLabelLoop, h, ih, hasLabel]

theorem getSecretsWithLabel_fst (c : SecretAPIClient σ) (labelName labelValue : String)
    (w : World σ) :
    (getSecretsWithLabel c labelName labelValue w).1
      = match (c.SecretList ⟨[]⟩ w.orch).1 with
        | .ok secrets => .ok (secrets.filter (hasLabel labelName labelValue))
        | .error err => .error err := by
  unfold getSecretsWithLabel callSecretList
  cases h : (c.SecretList ⟨[]⟩ w.orch).1 <;> simp [h, getSecretsWithLabelLoop_eq]

theorem getSecretsWithLabel_snd (c : SecretAPIClient σ) (labelName labelValue : String)
    (w : World σ) :
    (getSecretsWithLabel c labelName labelValue w).2
      = ⟨(c.SecretList ⟨[]⟩ w.orch).2, w.calls ++ [Call.SecretList ⟨[]⟩]⟩ := by
  unfold getSecretsWithLabel callSecretList
  cases h : (c.SecretList ⟨[]⟩ w.orch).1 <;> simp [h]

/-- C5: `getSecretsWithLabel` fails exactly when the listing call fails (with the same
error), and otherwise returns the listing filtered by the label test: an order-preserving
sublist of the listing in which every element passes the test and every listed secret that
passes the test keeps its multiplicity. An empty result is returned without error. -/
theorem getSecretsWithLabel_subsequence (c : SecretAPIClient σ) (labelName labelValue : String)
    (w : World σ) :
    ((getSecretsWithLabel c labelName labelValue w).1
      = match (c.SecretList ⟨[]⟩ w.orch).1 with
        | .ok secrets => .ok (secrets.filter (hasLabel labelName labelValue))
        | .error err => .error err)
    ∧ (∀ err, (getSecretsWithLabel c labelName labelValue w).1 = .error err
        ↔ (c.SecretList ⟨[]⟩ w.orch).1 = .error err)
    ∧ (∀ secrets, (c.SecretList ⟨[]⟩ w.orch).1 = .ok secrets →
        ∃ result, (getSecretsWithLabel c labelName labelValue w).1 = .ok result
          ∧ List.Sublist result secrets
          ∧ (∀ s ∈ result, mapIndex s.Spec.Labels labelName = labelValue)
          ∧ (∀ s, mapIndex s.Spec.Labels labelName = labelValue →
              result.count s = secrets.count s)) := by
  refine ⟨getSecretsWithLabel_fst c labelName labelValue w, ?_, ?_⟩
  · intro err
    rw [getSecretsWithLabel_fst]
    cases h : (c.SecretList ⟨[]⟩ w.orch).1 <;> simp
  · intro secrets h
    refine ⟨secrets.filter (hasLabel labelName labelValue), ?_, List.filter_sublist _, ?_, ?_⟩
    · rw [getSecretsWithLabel_fst, h]
    · intro s hs
      have := (List.mem_filter.mp hs).2
      simpa [hasLabel] using this
    · intro s hs
      rw [List.count_filter]
      simp [hasLabel, hs]

theorem getSecretWithNameLoop_find (e : Env) (name : String) (secrets : List Secret) :
    getSecretWithNameLoop e name secrets
      = match secrets.find? (hasLabel openFaasSecretNameLabel name) with
        | none => ⟨none, StatusNotFound, some ("unable to found secret with name: " ++ name)⟩
        | some s =>
          if mapIndex s.Spec.Labels e.ProjectLabel = e.NFFaaSDockerProject then
            ⟨some s, StatusOK, none⟩
          else
            ⟨none, StatusInternalServerError,
              some ("found secret with name: " ++ name ++ ", but it doesn't have label: "
                ++ e.ProjectLabel ++ " == " ++ e.NFFaaSDockerProject)⟩ := by
  induction secrets with
  | nil => simp [getSecretWithNameLoop]
  | cons s rest ih =>
    by_cases h : mapIndex s.Spec.Labels openFaasSecretNameLabel = name
    · simp [getSecretWithNameLoop, List.find?, hasLabel, h]
    · simp [getSecretWithNameLoop, List.find?, hasLabel, h, ih]

theorem getSecretWithName_fst (e : Env) (c : SecretAPIClient σ) (name : String) (w : World σ) :
    (getSecretWithName e c name w).1
      = match (c.SecretList ⟨[]⟩ w.orch).1 with
        | .ok secrets => getSecretWithNameLoop e name secrets
        | .error err => ⟨none, StatusInternalServerError, some err⟩ := by
  unfold getSecretWithName callSecretList
  cases h : (c.SecretList ⟨[]⟩ w.orch).1 <;> simp [h]

theorem getSecretWithName_snd (e : Env) (c : SecretAPIClient σ) (name : String) (w : World σ) :
    (getSecretWithName e c name w).2
      = ⟨(c.SecretList ⟨[]⟩ w.orch).2, w.calls ++ [Call.SecretList ⟨[]⟩]⟩ := by
  unfold getSecretWithName callSecretList
  cases h : (c.SecretList ⟨[]⟩ w.orch).1 <;> simp [h]

/-- C2: `getSecretWithName` is decided by the first listed entry whose secret-name label
equals the requested name. It returns (nil, 404, error) exactly when the listing succeeds
and no listed entry carries the name; (that entry, 200, nil) when the first such entry has
the configured project label; (nil, 500, error) when the first such entry has another
project label; and (nil, 500, the listing error) when the listing call fails. -/
theorem getSecretWithName_classification (e : Env) (c : SecretAPIClient σ) (name : String)
    (w : World σ) :
    (∀ err, (c.SecretList ⟨[]⟩ w.orch).1 = .error err →
        (getSecretWithName e c name w).1 = ⟨none, StatusInternalServerError, some err⟩)
    ∧ ((getSecretWithName e c name w).1.status = StatusNotFound
        ↔ ∃ secrets, (c.SecretList ⟨[]⟩ w.orch).1 = .ok secrets
            ∧ ∀ s ∈ secrets, mapIndex s.Spec.Labels openFaasSecretNameLabel ≠ name)
    ∧ ((getSecretWithName e c name w).1.status = StatusNotFound →
        (getSecretWithName e c name w).1.secret = none
          ∧ (getSecretWithName e c name w).1.err.isSome = true)
    ∧ (∀ secrets s, (c.SecretList ⟨[]⟩ w.orch).1 = .ok secrets →
        secrets.find? (hasLabel openFaasSecretNameLabel name) = some s →
        mapIndex s.Spec.Labels e.ProjectLabel = e.NFFaaSDockerProject →
        (getSecretWithName e c name w).1 = ⟨some s, StatusOK, none⟩)
    ∧ (∀ secrets s, (c.SecretList ⟨[]⟩ w.orch).1 = .ok secrets →
        secrets.find? (hasLabel openFaasSecretNameLabel name) = some s →
        mapIndex s.Spec.Labels e.ProjectLabel ≠ e.NFFaaSDockerProject →
        (getSecretWithName e c name w).1.secret = none
          ∧ (getSecretWithName e c name w).1.status = StatusInternalServerError
          ∧ (getSecretWithName e c name w).1.err.isSome = true) := by
  cases hl : (c.SecretList ⟨[]⟩ w.orch).1 with
  | error err =>
    have hres : (getSecretWithName e c name w).1 = ⟨none, StatusInternalServerError, some err⟩ := by
      rw [getSecretWithName_fst, hl]
    rw [hres]
    simp [StatusInternalServerError, StatusNotFound]
  | ok secrets =>
    cases hf : secrets.find? (hasLabel openFaasSecretNameLabel name) with
    | none =>
      have hres : (getSecretWithName e c name w).1
          = ⟨none, StatusNotFound, some ("unable to found secret with name: " ++ name)⟩ := by
        rw [getSecretWithName_fst, hl]
        simp only [getSecretWithNameLoop_find, hf]
      have hnone : ∀ s ∈ secrets, mapIndex s.Spec.Labels openFaasSecretNameLabel ≠ name := by
        intro s hs
        have := List.find?_eq_none.mp hf s hs
        simpa [hasLabel] using this
      rw [hres]
      refine ⟨by simp, by simpa using hnone, by simp, ?_, ?_⟩
      · intro secrets1 s h1 h2
        cases h1
        rw [hf] at h2
        cases h2
      · intro secrets1 s h1 h2
        cases h1
        rw [hf] at h2
        cases h2
    | some s =>
      have hmem : s ∈ secrets := List.mem_of_find?_eq_some hf
      have hlab : mapIndex s.Spec.Labels openFaasSecretNameLabel = name := by
        have := List.find?_some hf
        simpa [hasLabel] using this
      have hres : (getSecretWithName e c name w).1
          = if mapIndex s.Spec.Labels e.ProjectLabel = e.NFFaaSDockerProject then
              ⟨some s, StatusOK, none⟩
            else
              ⟨none, StatusInternalServerError,
                some ("found secret with name: " ++ name ++ ", but it doesn't have label: "
                  ++ e.ProjectLabel ++ " == " ++ e.NFFaaSDockerProject)⟩ := by
        rw [getSecretWithName_fst, hl]
        simp only [getSecretWithNameLoop_find, hf]
      have hne : ¬ ∀ s ∈ secrets, mapIndex s.Spec.Labels openFaasSecretNameLabel ≠ name :=
        fun h => h s hmem hlab
      rw [hres]
      refine ⟨by simp, ?_, ?_, ?_, ?_⟩
      · by_cases hp : mapIndex s.Spec.Labels e.ProjectLabel = e.NFFaaSDockerProject
        · simpa [hp, StatusOK, StatusNotFound] using hne
        · simpa [hp, StatusInternalServerError, StatusNotFound] using hne
      · by_cases hp : mapIndex s.Spec.Labels e.ProjectLabel = e.NFFaaSDockerProject
        · simp [hp, StatusOK, StatusNotFound]
        · simp [hp, StatusInternalServerError, StatusNotFound]
      · intro secrets1 s1 h1 h2 hp
        cases h1
        rw [hf] at h2
        cases h2
        simp [hp]
      · intro secrets1 s1 h1 h2 hp
        cases h1
        rw [hf] at h2
        cases h2
        simp [hp]

/-! ## Theorems: Go maps and the created spec -/

theorem mapLookup_filter_ne {ν : Type} (m : GoMap ν) (k key : String) (h : key ≠ k) :
    mapLookup (m.filter (fun p => decide (p.1 ≠ k))) key = mapLookup m key := by
  induction m with
  | nil => rfl
  | cons p rest ih =>
    obtain ⟨k1, v1⟩ := p
    rw [List.filter_cons]
    by_cases h1 : k1 = k
    · have h2 : ¬ k1 = key := fun h3 => h (h3 ▸ h1)
      rw [if_neg (by simp [h1])]
      rw [ih]
      simp [mapLookup, h2]
    · rw [if_pos (by simp [h1])]
      by_cases h2 : k1 = key
      · simp [mapLookup, h2]
      · simp only [mapLookup, h2, if_false]
        exact ih

theorem mapLookup_mapAssign_same {ν : Type} (m : GoMap ν) (k : String) (v : ν) :
    mapLookup (mapAssign m k v) k = some v := by
  simp [mapAssign, mapLookup]

theorem mapLookup_mapAssign_other {ν : Type} (m : GoMap ν) (k key : String) (v : ν)
    (h : key ≠ k) : mapLookup (mapAssign m k v) key = mapLookup m key := by
  have h1 : ¬ k = key := fun h2 => h h2.symm
  unfold mapAssign
  simp only [mapLookup, h1, if_false]
  exact mapLookup_filter_ne m k key h

theorem createSpec_labels (e : Env) (apiSecret : ApiSecret) (key : String) :
    mapLookup (createSpec e apiSecret).Labels key
      = if key = openFaasSecretNameLabel then some apiSecret.Name
        else if key = e.ProjectLabel then some e.NFFaaSDockerProject
        else none := by
  unfold createSpec
  by_cases h1 : key = openFaasSecretNameLabel
  · subst h1
    simp [mapLookup_mapAssign_same]
  · rw [mapLookup_mapAssign_other _ _ _ _ h1]
    by_cases h2 : key = e.ProjectLabel
    · subst h2
      simp [mapLookup_mapAssign_same, h1]
    · rw [mapLookup_mapAssign_other _ _ _ _ h2]
      simp [h1, h2, mapLookup]

theorem createSpec_nameLabel (e : Env) (apiSecret : ApiSecret) :
    mapIndex (createSpec e apiSecret).Labels openFaasSecretNameLabel = apiSecret.Name := by
  simp [mapIndex, createSpec_labels]

theorem createSpec_projectLabel (e : Env) (apiSecret : ApiSecret)
    (h : e.ProjectLabel ≠ openFaasSecretNameLabel) :
    mapIndex (createSpec e apiSecret).Labels e.ProjectLabel = e.NFFaaSDockerProject := by
  simp [mapIndex, createSpec_labels, h]

/-! ## Theorems: the orchestrator model -/

theorem swarmClient_list_all (st : List Secret) :
    swarmClient.SecretList ⟨[]⟩ st = (.ok st, st) := by
  simp [swarmClient, passesFilters]

theorem createNewSecret_swarm (e : Env) (body : String) (apiSecret : ApiSecret)
    (st : List Secret) (calls : List Call) (hbody : e.jsonUnmarshal body = .ok apiSecret) :
    createNewSecret e swarmClient body ⟨st, calls⟩
      = if st.any (fun s => decide (s.Spec.Name = e.ProjectSpecificName apiSecret.Name)) then
          (⟨StatusInternalServerError, none,
            some ("error creating secret in secretPostHandler: "
              ++ ("secret " ++ e.ProjectSpecificName apiSecret.Name ++ " already exists"))⟩,
            ⟨st, calls ++ [Call.SecretCreate (createSpec e apiSecret)]⟩)
        else
          (⟨StatusCreated, none, none⟩,
            ⟨st ++ [⟨freshID st, 0, createSpec e apiSecret⟩],
              calls ++ [Call.SecretCreate (createSpec e apiSecret)]⟩) := by
  unfold createNewSecret callSecretCreate
  rw [hbody]
  by_cases h : st.any (fun s => decide (s.Spec.Name = e.ProjectSpecificName apiSecret.Name))
  · have h2 : st.any (fun s => decide (s.Spec.Name = (createSpec e apiSecret).Name)) = true := h
    simp only [swarmClient, h2, h, if_true]
    rfl
  · have h2 : ¬ st.any (fun s => decide (s.Spec.Name = (createSpec e apiSecret).Name)) = true := h
    simp only [swarmClient, h2, h, if_false]
    rfl

/-! ## Theorems: isolation -/

theorem getSecretWithNameLoop_conflict (e : Env) (name : String) (secrets : List Secret)
    (hsome : ∃ s ∈ secrets, mapIndex s.Spec.Labels openFaasSecretNameLabel = name)
    (hother : ∀ s ∈ secrets, mapIndex s.Spec.Labels openFaasSecretNameLabel = name →
      mapIndex s.Spec.Labels e.ProjectLabel ≠ e.NFFaaSDockerProject) :
    getSecretWithNameLoop e name secrets
      = ⟨none, StatusInternalServerError,
          some ("found secret with name: " ++ name ++ ", but it doesn't have label: "
            ++ e.ProjectLabel ++ " == " ++ e.NFFaaSDockerProject)⟩ := by
  rw [getSecretWithNameLoop_find]
  cases hf : secrets.find? (hasLabel openFaasSecretNameLabel name) with
  | none =>
    obtain ⟨s, hs, hl⟩ := hsome
    have := List.find?_eq_none.mp hf s hs
    simp [hasLabel, hl] at this
  | some s =>
    have hmem : s ∈ secrets := List.mem_of_find?_eq_some hf
    have hlab : mapIndex s.Spec.Labels openFaasSecretNameLabel = name := by
      have := List.find?_some hf
      simpa [hasLabel] using this
    simp [hother s hmem hlab]

/-- C1 (as amended): after project P1 has created a secret named N in the orchestrator
model, and no stored secret carries name N with project label P2, a lookup of N under a
different project P2 yields the ownership conflict (nil, 500, error): it does not return
P1's secret, and it does not yield NotFound. -/
theorem isolation_conflict (e1 e2 : Env) (st : List Secret) (calls : List Call)
    (body : String) (apiSecret : ApiSecret)
    (hlabel : e1.ProjectLabel = e2.ProjectLabel)
    (hkey : e1.ProjectLabel ≠ openFaasSecretNameLabel)
    (hproj : e1.NFFaaSDockerProject ≠ e2.NFFaaSDockerProject)
    (hbody : e1.jsonUnmarshal body = .ok apiSecret)
    (hfree : ∀ s ∈ st, mapIndex s.Spec.Labels openFaasSecretNameLabel = apiSecret.Name →
      mapIndex s.Spec.Labels e2.ProjectLabel ≠ e2.NFFaaSDockerProject)
    (hcreate : (createNewSecret e1 swarmClient body ⟨st, calls⟩).1.err = none) :
    (getSecretWithName e2 swarmClient apiSecret.Name
        (createNewSecret e1 swarmClient body ⟨st, calls⟩).2).1
      = ⟨none, StatusInternalServerError,
          some ("found secret with name: " ++ apiSecret.Name
            ++ ", but it doesn't have label: " ++ e2.ProjectLabel ++ " == "
            ++ e2.NFFaaSDockerProject)⟩ := by
  rw [createNewSecret_swarm e1 body apiSecret st calls hbody] at hcreate ⊢
  by_cases h : st.any (fun s => decide (s.Spec.Name = e1.ProjectSpecificName apiSecret.Name))
  · simp [h] at hcreate
  · simp only [h, if_false, Bool.false_eq_true]
    rw [getSecretWithName_fst, swarmClient_list_all]
    apply getSecretWithNameLoop_conflict
    · exact ⟨⟨freshID st, 0, createSpec e1 apiSecret⟩, by simp,
        createSpec_nameLabel e1 apiSecret⟩
    · intro s hs hname
      rcases List.mem_append.mp hs with h1 | h1
      · exact hfree s h1 hname
      · have h2 : s = ⟨freshID st, 0, createSpec e1 apiSecret⟩ := by simpa using h1
        subst h2
        rw [← hlabel]
        simp only
        rw [createSpec_projectLabel e1 apiSecret hkey]
        exact hproj

theorem isolation_conflict_witness :
    (getSecretWithName (sampleEnv "p2") swarmClient "n"
        (createNewSecret (sampleEnv "p1") swarmClient "n=v" ⟨[], []⟩).2).1
      = ⟨none, 500,
          some "found secret with name: n, but it doesn't have label: project == p2"⟩ :=
  isolation_conflict (sampleEnv "p1") (sampleEnv "p2") [] [] "n=v" ⟨"n", "v"⟩
    rfl (by decide) (by decide) (by decide) (by simp) (by decide)

/-- C1 (counterexample): in the orchestrator model, project p1 creates secret n (201);
the lookup of n under project p2 answers 500, not 404. -/
theorem isolation_notFound_counterexample :
    (createNewSecret (sampleEnv "p1") swarmClient "n=v" ⟨[], []⟩).1 = ⟨201, none, none⟩
      ∧ (getSecretWithName (sampleEnv "p2") swarmClient "n"
          (createNewSecret (sampleEnv "p1") swarmClient "n=v" ⟨[], []⟩).2).1.status = 500
      ∧ (getSecretWithName (sampleEnv "p2") swarmClient "n"
          (createNewSecret (sampleEnv "p1") swarmClient "n=v" ⟨[], []⟩).2).1.status
          ≠ StatusNotFound := by
  decide

/-! ## Theorems: delete -/

theorem removeCalls_append (xs ys : List Call) :
    removeCalls (xs ++ ys) = removeCalls xs ++ removeCalls ys := by
  induction xs with
  | nil => rfl
  | cons x rest ih => cases x <;> simp [removeCalls, ih]

/-- The four outcomes of `getSecretWithName`, each with its cause. -/
theorem getSecretWithName_cases (e : Env) (c : SecretAPIClient σ) (name : String) (w : World σ) :
    (∃ err, (c.SecretList ⟨[]⟩ w.orch).1 = .error err
        ∧ (getSecretWithName e c name w).1 = ⟨none, StatusInternalServerError, some err⟩)
    ∨ (∃ secrets, (c.SecretList ⟨[]⟩ w.orch).1 = .ok secrets
        ∧ (∀ s ∈ secrets, mapIndex s.Spec.Labels openFaasSecretNameLabel ≠ name)
        ∧ (getSecretWithName e c name w).1
            = ⟨none, StatusNotFound, some ("unable to found secret with name: " ++ name)⟩)
    ∨ (∃ secrets s, (c.SecretList ⟨[]⟩ w.orch).1 = .ok secrets
        ∧ secrets.find? (hasLabel openFaasSecretNameLabel name) = some s
        ∧ s ∈ secrets
        ∧ mapIndex s.Spec.Labels openFaasSecretNameLabel = name
        ∧ mapIndex s.Spec.Labels e.ProjectLabel = e.NFFaaSDockerProject
        ∧ (getSecretWithName e c name w).1 = ⟨some s, StatusOK, none⟩)
    ∨ (∃ secrets s, (c.SecretList ⟨[]⟩ w.orch).1 = .ok secrets
        ∧ secrets.find? (hasLabel openFaasSecretNameLabel name) = some s
        ∧ s ∈ secrets
        ∧ mapIndex s.Spec.Labels openFaasSecretNameLabel = name
        ∧ mapIndex s.Spec.Labels e.ProjectLabel ≠ e.NFFaaSDockerProject
        ∧ (getSecretWithName e c name w).1
            = ⟨none, StatusInternalServerError,
                some ("found secret with name: " ++ name ++ ", but it doesn't have label: "
                  ++ e.ProjectLabel ++ " == " ++ e.NFFaaSDockerProject)⟩) := by
  rw [getSecretWithName_fst]
  cases hl : (c.SecretList ⟨[]⟩ w.orch).1 with
  | error err => exact Or.inl ⟨err, rfl, rfl⟩
  | ok secrets =>
    simp only [getSecretWithNameLoop_find]
    cases hf : secrets.find? (hasLabel openFaasSecretNameLabel name) with
    | none =>
      refine Or.inr (Or.inl ⟨secrets, rfl, ?_, rfl⟩)
      intro s hs
      have := List.find?_eq_none.mp hf s hs
      simpa [hasLabel] using this
    | some s =>
      have hmem : s ∈ secrets := List.mem_of_find?_eq_some hf
      have hlab : mapIndex s.Spec.Labels openFaasSecretNameLabel = name := by
        have := List.find?_some hf
        simpa [hasLabel] using this
      by_cases hp : mapIndex s.Spec.Labels e.ProjectLabel = e.NFFaaSDockerProject
      · exact Or.inr (Or.inr (Or.inl ⟨secrets, s, rfl, hf, hmem, hlab, hp, by simp [hp]⟩))
      · exact Or.inr (Or.inr (Or.inr ⟨secrets, s, rfl, hf, hmem, hlab, hp, by simp [hp]⟩))

theorem deleteSecret_malformed (e : Env) (c : SecretAPIClient σ) (body : String) (w : World σ)
    (err : String) (hbody : e.jsonUnmarshal body = .error err) :
    deleteSecret e c body w
      = (⟨StatusBadRequest, none,
          some ("error unmarshaling secret in secretDeleteHandler: " ++ err)⟩, w) := by
  unfold deleteSecret
  simp only [hbody]

theorem deleteSecret_getFailed (e : Env) (c : SecretAPIClient σ) (body : String) (w : World σ)
    (apiSecret : ApiSecret) (status : Nat) (getErr : String) (sec : Option Secret)
    (hbody : e.jsonUnmarshal body = .ok apiSecret)
    (hget : (getSecretWithName e c apiSecret.Name w).1 = ⟨sec, status, some getErr⟩) :
    deleteSecret e c body w
      = (⟨status, none,
          some ("cannot get secret with name: " ++ apiSecret.Name
            ++ ", which you want to remove. Error: " ++ getErr)⟩,
          ⟨(c.SecretList ⟨[]⟩ w.orch).2, w.calls ++ [Call.SecretList ⟨[]⟩]⟩) := by
  have hg : getSecretWithName e c apiSecret.Name w
      = (⟨sec, status, some getErr⟩,
          ⟨(c.SecretList ⟨[]⟩ w.orch).2, w.calls ++ [Call.SecretList ⟨[]⟩]⟩) :=
    Prod.ext hget (getSecretWithName_snd e c apiSecret.Name w)
  unfold deleteSecret
  simp only [hbody, hg]

theorem deleteSecret_found (e : Env) (c : SecretAPIClient σ) (body : String) (w : World σ)
    (apiSecret : ApiSecret) (status : Nat) (s : Secret)
    (hbody : e.jsonUnmarshal body = .ok apiSecret)
    (hget : (getSecretWithName e c apiSecret.Name w).1 = ⟨some s, status, none⟩) :
    deleteSecret e c body w
      = match c.SecretRemove s.ID (c.SecretList ⟨[]⟩ w.orch).2 with
        | (some removeSecretErr, st) =>
          (⟨StatusInternalServerError, none,
            some ("error trying to remove secret (name: " ++ "\x60" ++ apiSecret.Name ++ "\x60"
              ++ ", ID: " ++ "\x60" ++ s.ID ++ "\x60" ++ "): " ++ removeSecretErr)⟩,
            ⟨st, w.calls ++ [Call.SecretList ⟨[]⟩] ++ [Call.SecretRemove s.ID]⟩)
        | (none, st) =>
          (⟨StatusOK, none, none⟩,
            ⟨st, w.calls ++ [Call.SecretList ⟨[]⟩] ++ [Call.SecretRemove s.ID]⟩) := by
  have hg : getSecretWithName e c apiSecret.Name w
      = (⟨some s, status, none⟩,
          ⟨(c.SecretList ⟨[]⟩ w.orch).2, w.calls ++ [Call.SecretList ⟨[]⟩]⟩) :=
    Prod.ext hget (getSecretWithName_snd e c apiSecret.Name w)
  unfold deleteSecret
  simp only [hbody, hg, callSecretRemove]
  cases h : c.SecretRemove s.ID (c.SecretList ⟨[]⟩ w.orch).2 with
  | mk r st => cases r <;> simp

theorem deleteSecret_getFailed_removeCalls (e : Env) (c : SecretAPIClient σ) (body : String)
    (w : World σ) (apiSecret : ApiSecret) (hbody : e.jsonUnmarshal body = .ok apiSecret)
    (hget : (getSecretWithName e c apiSecret.Name w).1.err ≠ none) :
    removeCalls (deleteSecret e c body w).2.calls = removeCalls w.calls := by
  cases hg : (getSecretWithName e c apiSecret.Name w).1 with
  | mk sec status err =>
    cases err with
    | none => simp [hg] at hget
    | some getErr =>
      rw [deleteSecret_getFailed e c body w apiSecret status getErr sec hbody hg]
      simp [removeCalls_append, removeCalls]

/-- C3: `deleteSecret` resolves, then removes by identifier. Either it adds no
`SecretRemove` call to the log, or it adds exactly one, and then the body parsed,
`getSecretWithName` succeeded, and the identifier passed is the ID of a listed secret whose
secret-name label is the requested name and whose project label is the configured project.
No `SecretRemove` call is added when the body is malformed, when the listing fails, when no
listed secret carries the name, or when the first listed secret carrying it belongs to
another project. -/
theorem deleteSecret_resolve_then_remove (e : Env) (c : SecretAPIClient σ) (body : String)
    (w : World σ) :
    (removeCalls (deleteSecret e c body w).2.calls = removeCalls w.calls
      ∨ ∃ apiSecret secrets s, e.jsonUnmarshal body = .ok apiSecret
          ∧ (getSecretWithName e c apiSecret.Name w).1 = ⟨some s, StatusOK, none⟩
          ∧ (c.SecretList ⟨[]⟩ w.orch).1 = .ok secrets
          ∧ s ∈ secrets
          ∧ mapIndex s.Spec.Labels openFaasSecretNameLabel = apiSecret.Name
          ∧ mapIndex s.Spec.Labels e.ProjectLabel = e.NFFaaSDockerProject
          ∧ removeCalls (deleteSecret e c body w).2.calls = removeCalls w.calls ++ [s.ID])
    ∧ (∀ err, e.jsonUnmarshal body = .error err →
        removeCalls (deleteSecret e c body w).2.calls = removeCalls w.calls)
    ∧ (∀ apiSecret, e.jsonUnmarshal body = .ok apiSecret →
        (getSecretWithName e c apiSecret.Name w).1.err ≠ none →
        removeCalls (deleteSecret e c body w).2.calls = removeCalls w.calls)
    ∧ (∀ apiSecret, e.jsonUnmarshal body = .ok apiSecret →
        ((∃ err, (c.SecretList ⟨[]⟩ w.orch).1 = .error err)
          ∨ (∃ secrets, (c.SecretList ⟨[]⟩ w.orch).1 = .ok secrets
              ∧ ∀ s ∈ secrets, mapIndex s.Spec.Labels openFaasSecretNameLabel ≠ apiSecret.Name)
          ∨ (∃ secrets s, (c.SecretList ⟨[]⟩ w.orch).1 = .ok secrets
              ∧ secrets.find? (hasLabel openFaasSecretNameLabel apiSecret.Name) = some s
              ∧ mapIndex s.Spec.Labels e.ProjectLabel ≠ e.NFFaaSDockerProject)) →
        removeCalls (deleteSecret e c body w).2.calls = removeCalls w.calls) := by
  have hfail : ∀ apiSecret, e.jsonUnmarshal body = .ok apiSecret →
      (getSecretWithName e c apiSecret.Name w).1.err ≠ none →
      removeCalls (deleteSecret e c body w).2.calls = removeCalls w.calls :=
    fun apiSecret hb hg => deleteSecret_getFailed_removeCalls e c body w apiSecret hb hg
  have hmal : ∀ err, e.jsonUnmarshal body = .error err →
      removeCalls (deleteSecret e c body w).2.calls = removeCalls w.calls := by
    intro err hb
    rw [deleteSecret_malformed e c body w err hb]
  refine ⟨?_, hmal, hfail, ?_⟩
  · cases hb : e.jsonUnmarshal body with
    | error err => exact Or.inl (hmal err hb)
    | ok apiSecret =>
      rcases getSecretWithName_cases e c apiSecret.Name w with
        ⟨err, _, hr⟩ | ⟨secrets, _, _, hr⟩ | ⟨secrets, s, hl, _, hmem, hlab, hp, hr⟩
          | ⟨secrets, s, _, _, _, _, _, hr⟩
      · exact Or.inl (hfail apiSecret hb (by simp [hr]))
      · exact Or.inl (hfail apiSecret hb (by simp [hr]))
      · refine Or.inr ⟨apiSecret, secrets, s, rfl, hr, hl, hmem, hlab, hp, ?_⟩
        rw [deleteSecret_found e c body w apiSecret StatusOK s hb hr]
        cases hrm : c.SecretRemove s.ID (c.SecretList ⟨[]⟩ w.orch).2 with
        | mk r st => cases r <;> simp [removeCalls_append, removeCalls]
      · exact Or.inl (hfail apiSecret hb (by simp [hr]))
  · intro apiSecret hb hcause
    apply hfail apiSecret hb
    rcases getSecretWithName_cases e c apiSecret.Name w with
      ⟨err, _, hr⟩ | ⟨secrets, _, _, hr⟩ | ⟨secrets, s, hl, hf, _, _, hp, hr⟩
        | ⟨secrets, s, _, _, _, _, _, hr⟩
    · simp [hr]
    · simp [hr]
    · exfalso
      rcases hcause with ⟨err, h1⟩ | ⟨secrets1, h1, h2⟩ | ⟨secrets1, s1, h1, h2, h3⟩
      · rw [hl] at h1
        cases h1
      · rw [hl] at h1
        cases h1
        have := List.find?_some hf
        have hm := List.mem_of_find?_eq_some hf
        exact h2 s hm (by simpa [hasLabel] using this)
      · rw [hl] at h1
        cases h1
        rw [hf] at h2
        cases h2
        exact h3 hp
    · simp [hr]

/-! ## Theorems: reference resolver -/

theorem foundLoop_lookup (secrets : List Secret) (foundSecrets : GoMap String)
    (foundSecretNames : List String) (key id : String)
    (h : mapLookup (foundLoop secrets foundSecrets foundSecretNames).1 key = some id) :
    mapLookup foundSecrets key = some id
      ∨ ∃ s ∈ secrets, s.ID = id ∧ mapIndex s.Spec.Labels openFaasSecretNameLabel = key := by
  induction secrets generalizing foundSecrets foundSecretNames with
  | nil => exact Or.inl h
  | cons s rest ih =>
    simp only [foundLoop] at h
    rcases ih _ _ h with h1 | ⟨s1, hs1, hid, hlab⟩
    · by_cases hk : key = mapIndex s.Spec.Labels openFaasSecretNameLabel
      · subst hk
        rw [mapLookup_mapAssign_same] at h1
        exact Or.inr ⟨s, by simp, by simpa using h1, rfl⟩
      · rw [mapLookup_mapAssign_other _ _ _ _ hk] at h1
        exact Or.inl h1
    · exact Or.inr ⟨s1, List.mem_cons_of_mem _ hs1, hid, hlab⟩

theorem resolveLoop_ids (originalSecretNames foundSecrets : GoMap String)
    (foundSecretNames : List String) (secretOpts : List SecretReference)
    (requestedSecrets : GoMap Bool) (values refs : List SecretReference)
    (hvalues : ∀ ref ∈ values,
      mapLookup foundSecrets (mapIndex originalSecretNames ref.SecretName) = some ref.SecretID)
    (h : resolveLoop originalSecretNames foundSecrets foundSecretNames secretOpts
      requestedSecrets values = .ok refs) :
    ∀ ref ∈ refs,
      mapLookup foundSecrets (mapIndex originalSecretNames ref.SecretName)
        = some ref.SecretID := by
  induction secretOpts generalizing requestedSecrets values with
  | nil =>
    simp only [resolveLoop, Except.ok.injEq] at h
    subst h
    exact hvalues
  | cons opts rest ih =>
    simp only [resolveLoop] at h
    cases hreq : mapLookup requestedSecrets opts.SecretName with
    | some b => simp [hreq] at h
    | none =>
      simp only [hreq] at h
      cases hfound : mapLookup foundSecrets (mapIndex originalSecretNames opts.SecretName) with
      | none => simp [hfound] at h
      | some id =>
        simp only [hfound] at h
        apply ih _ _ _ h
        intro ref href
        rcases List.mem_append.mp href with h1 | h1
        · exact hvalues ref h1
        · have h2 : ref = { opts with SecretID := id } := by simpa using h1
          subst h2
          exact hfound

/-- Every reference in a successful result of `makeSecretsArray` for a non-empty request
carries the ID of a secret in the listing returned for the name filter, namely one whose
secret-name label is the logical name recorded for the reference's physical name. The
project label of that secret is not read. -/
theorem makeSecretsArray_ids_listed (e : Env) (c : SecretAPIClient σ)
    (secretNames : List String) (w : World σ) (refs : List SecretReference)
    (hne : secretNames ≠ [])
    (hok : (makeSecretsArray e c secretNames w).1 = .ok refs) :
    ∃ secretOpts originalSecretNames secrets,
      setLoop e secretNames [] [] = .ok (secretOpts, originalSecretNames)
      ∧ (c.SecretList ⟨filterArgs secretOpts⟩ w.orch).1 = .ok secrets
      ∧ (∀ ref ∈ refs, ∃ s ∈ secrets, s.ID = ref.SecretID
          ∧ mapIndex s.Spec.Labels openFaasSecretNameLabel
              = mapIndex originalSecretNames ref.SecretName)
      ∧ ((∀ s ∈ secrets, mapIndex s.Spec.Labels e.ProjectLabel = e.NFFaaSDockerProject) →
          ∀ ref ∈ refs, ∃ s ∈ secrets, s.ID = ref.SecretID
            ∧ mapIndex s.Spec.Labels e.ProjectLabel = e.NFFaaSDockerProject) := by
  have hlen : ¬ secretNames.length = 0 := by
    intro h0
    exact hne (List.length_eq_zero.mp h0)
  unfold makeSecretsArray at hok
  simp only [hlen, if_false] at hok
  cases hset : setLoop e secretNames [] [] with
  | error err => simp [hset] at hok
  | ok pair =>
    obtain ⟨secretOpts, originalSecretNames⟩ := pair
    simp only [hset, callSecretList] at hok
    cases hlist : (c.SecretList ⟨filterArgs secretOpts⟩ w.orch).1 with
    | error err => simp [hlist] at hok
    | ok secrets =>
      simp only [hlist] at hok
      have hids := resolveLoop_ids _ _ _ _ _ _ refs (by simp) hok
      have hmain : ∀ ref ∈ refs, ∃ s ∈ secrets, s.ID = ref.SecretID
          ∧ mapIndex s.Spec.Labels openFaasSecretNameLabel
              = mapIndex originalSecretNames ref.SecretName := by
        intro ref href
        rcases foundLoop_lookup secrets [] [] _ _ (hids ref href) with h1 | h1
        · simp [mapLookup] at h1
        · exact h1
      refine ⟨secretOpts, originalSecretNames, secrets, rfl, hlist, hmain, ?_⟩
      intro hall ref href
      obtain ⟨s, hs, hid, _⟩ := hmain ref href
      exact ⟨s, hs, hid, hall s hs⟩

/-! ## Theorems: update is rejected -/

/-- C6: for every request body, the handler answers a PUT request by the single writer call
`WriteHeader(405)`: no body is written, and the world is returned unchanged, so no
orchestrator call is issued and the orchestrator state is not touched. -/
theorem put_rejected (e : Env) (c : SecretAPIClient σ) (rw : ResponseWriter) (body : String)
    (w : World σ) :
    MakeSecretsHandler e c rw ⟨"PUT", .ok body⟩ w
      = ([WriterCall.WriteHeader StatusMethodNotAllowed], w) := by
  have h1 : ¬ ("PUT" = "GET") := by decide
  have h2 : ¬ ("PUT" = "POST") := by decide
  simp [MakeSecretsHandler, dispatch, h1, h2]

/-! ## Theorems: delete status mapping -/

/-- The outcomes of `deleteSecret` on a body that parsed, each with its cause. -/
theorem deleteSecret_outcome (e : Env) (c : SecretAPIClient σ) (body : String) (w : World σ)
    (apiSecret : ApiSecret) (hbody : e.jsonUnmarshal body = .ok apiSecret) :
    (∃ err msg, (c.SecretList ⟨[]⟩ w.orch).1 = .error err
        ∧ (deleteSecret e c body w).1 = ⟨StatusInternalServerError, none, some msg⟩)
    ∨ (∃ secrets msg, (c.SecretList ⟨[]⟩ w.orch).1 = .ok secrets
        ∧ (∀ s ∈ secrets, mapIndex s.Spec.Labels openFaasSecretNameLabel ≠ apiSecret.Name)
        ∧ (deleteSecret e c body w).1 = ⟨StatusNotFound, none, some msg⟩)
    ∨ (∃ secrets s msg, (c.SecretList ⟨[]⟩ w.orch).1 = .ok secrets
        ∧ secrets.find? (hasLabel openFaasSecretNameLabel apiSecret.Name) = some s
        ∧ mapIndex s.Spec.Labels e.ProjectLabel ≠ e.NFFaaSDockerProject
        ∧ (deleteSecret e c body w).1 = ⟨StatusInternalServerError, none, some msg⟩)
    ∨ (∃ secrets s rmErr msg, (c.SecretList ⟨[]⟩ w.orch).1 = .ok secrets
        ∧ secrets.find? (hasLabel openFaasSecretNameLabel apiSecret.Name) = some s
        ∧ mapIndex s.Spec.Labels e.ProjectLabel = e.NFFaaSDockerProject
        ∧ (c.SecretRemove s.ID (c.SecretList ⟨[]⟩ w.orch).2).1 = some rmErr
        ∧ (deleteSecret e c body w).1 = ⟨StatusInternalServerError, none, some msg⟩)
    ∨ (∃ secrets s, (c.SecretList ⟨[]⟩ w.orch).1 = .ok secrets
        ∧ secrets.find? (hasLabel openFaasSecretNameLabel apiSecret.Name) = some s
        ∧ mapIndex s.Spec.Labels e.ProjectLabel = e.NFFaaSDockerProject
        ∧ (c.SecretRemove s.ID (c.SecretList ⟨[]⟩ w.orch).2).1 = none
        ∧ (deleteSecret e c body w).1 = ⟨StatusOK, none, none⟩) := by
  rcases getSecretWithName_cases e c apiSecret.Name w with
    ⟨err, hl, hr⟩ | ⟨secrets, hl, hnone, hr⟩ | ⟨secrets, s, hl, hf, _, _, hp, hr⟩
      | ⟨secrets, s, hl, hf, _, _, hp, hr⟩
  · rw [deleteSecret_getFailed e c body w apiSecret _ _ _ hbody hr]
    exact Or.inl ⟨err, _, hl, rfl⟩
  · rw [deleteSecret_getFailed e c body w apiSecret _ _ _ hbody hr]
    exact Or.inr (Or.inl ⟨secrets, _, hl, hnone, rfl⟩)
  · rw [deleteSecret_found e c body w apiSecret _ s hbody hr]
    cases hrm : c.SecretRemove s.ID (c.SecretList ⟨[]⟩ w.orch).2 with
    | mk r st =>
      cases r with
      | none =>
        exact Or.inr (Or.inr (Or.inr (Or.inr ⟨secrets, s, hl, hf, hp, by rw [hrm], rfl⟩)))
      | some rmErr =>
        exact Or.inr (Or.inr (Or.inr (Or.inl
          ⟨secrets, s, rmErr, _, hl, hf, hp, by rw [hrm], rfl⟩)))
  · rw [deleteSecret_getFailed e c body w apiSecret _ _ _ hbody hr]
    exact Or.inr (Or.inr (Or.inl ⟨secrets, s, _, hl, hf, hp, rfl⟩))

theorem deleteSecret_value_ignored (e : Env) (c : SecretAPIClient σ) (body1 body2 : String)
    (w : World σ) (name value1 value2 : String)
    (h1 : e.jsonUnmarshal body1 = .ok ⟨name, value1⟩)
    (h2 : e.jsonUnmarshal body2 = .ok ⟨name, value2⟩) :
    deleteSecret e c body1 w = deleteSecret e c body2 w := by
  simp only [deleteSecret, h1, h2]

/-- C7: status mapping of `deleteSecret`. The status is 400 exactly when the body fails to
deserialize. For a body that deserializes, the status is 404 exactly when the listing
succeeds and no listed secret carries the requested name; it is 500 (with an error) when
the listing fails, when the first listed secret carrying the name belongs to another
project, or when `SecretRemove` fails; and it is 200 exactly when `SecretRemove` was issued
on the resolved secret and succeeded, in which case no error is returned. The status is
always one of 200, 400, 404, 500, the response body is always empty, and two bodies that
deserialize to the same Name give the same outcome whatever their Value. -/
theorem deleteSecret_status_mapping (e : Env) (c : SecretAPIClient σ) (body : String)
    (w : World σ) :
    ((deleteSecret e c body w).1.status = StatusBadRequest
        ↔ ∃ err, e.jsonUnmarshal body = .error err)
    ∧ (∀ apiSecret, e.jsonUnmarshal body = .ok apiSecret →
        ((deleteSecret e c body w).1.status = StatusNotFound
          ↔ ∃ secrets, (c.SecretList ⟨[]⟩ w.orch).1 = .ok secrets
              ∧ ∀ s ∈ secrets,
                  mapIndex s.Spec.Labels openFaasSecretNameLabel ≠ apiSecret.Name))
    ∧ (∀ apiSecret, e.jsonUnmarshal body = .ok apiSecret →
        ((∃ err, (c.SecretList ⟨[]⟩ w.orch).1 = .error err)
          ∨ (∃ secrets s, (c.SecretList ⟨[]⟩ w.orch).1 = .ok secrets
              ∧ secrets.find? (hasLabel openFaasSecretNameLabel apiSecret.Name) = some s
              ∧ mapIndex s.Spec.Labels e.ProjectLabel ≠ e.NFFaaSDockerProject)
          ∨ (∃ secrets s rmErr, (c.SecretList ⟨[]⟩ w.orch).1 = .ok secrets
              ∧ secrets.find? (hasLabel openFaasSecretNameLabel apiSecret.Name) = some s
              ∧ mapIndex s.Spec.Labels e.ProjectLabel = e.NFFaaSDockerProject
              ∧ (c.SecretRemove s.ID (c.SecretList ⟨[]⟩ w.orch).2).1 = some rmErr)) →
        (deleteSecret e c body w).1.status = StatusInternalServerError
          ∧ (deleteSecret e c body w).1.err.isSome = true)
    ∧ ((deleteSecret e c body w).1.status = StatusOK
        ↔ ∃ apiSecret secrets s, e.jsonUnmarshal body = .ok apiSecret
            ∧ (c.SecretList ⟨[]⟩ w.orch).1 = .ok secrets
            ∧ secrets.find? (hasLabel openFaasSecretNameLabel apiSecret.Name) = some s
            ∧ mapIndex s.Spec.Labels e.ProjectLabel = e.NFFaaSDockerProject
            ∧ (c.SecretRemove s.ID (c.SecretList ⟨[]⟩ w.orch).2).1 = none)
    ∧ ((deleteSecret e c body w).1.status = StatusOK ↔ (deleteSecret e c body w).1.err = none)
    ∧ ((deleteSecret e c body w).1.status = StatusOK
        ∨ (deleteSecret e c body w).1.status = StatusBadRequest
        ∨ (deleteSecret e c body w).1.status = StatusNotFound
        ∨ (deleteSecret e c body w).1.status = StatusInternalServerError)
    ∧ (deleteSecret e c body w).1.body = none
    ∧ (∀ body2 name value value2, e.jsonUnmarshal body = .ok ⟨name, value⟩ →
        e.jsonUnmarshal body2 = .ok ⟨name, value2⟩ →
        deleteSecret e c body2 w = deleteSecret e c body w) := by
  cases hb : e.jsonUnmarshal body with
  | error err =>
    rw [deleteSecret_malformed e c body w err hb]
    simp [StatusBadRequest, StatusOK, StatusNotFound, StatusInternalServerError]
  | ok apiSecret =>
    have hvalue : ∀ body2 name value value2,
        (Except.ok apiSecret : Except String ApiSecret) = .ok ⟨name, value⟩ →
        e.jsonUnmarshal body2 = .ok ⟨name, value2⟩ →
        deleteSecret e c body2 w = deleteSecret e c body w := by
      intro body2 name value value2 h1 h2
      cases h1
      exact deleteSecret_value_ignored e c body2 body w name value2 value h2 hb
    rcases deleteSecret_outcome e c body w apiSecret hb with
      ⟨err, msg, hl, hr⟩ | ⟨secrets, msg, hl, hnone, hr⟩ | ⟨secrets, s, msg, hl, hf, hp, hr⟩
        | ⟨secrets, s, rmErr, msg, hl, hf, hp, hrm, hr⟩ | ⟨secrets, s, hl, hf, hp, hrm, hr⟩
    · rw [hr]
      refine ⟨by simp [StatusBadRequest, StatusInternalServerError], ?_, ?_, ?_, ?_, ?_, rfl,
        hvalue⟩
      · intro a ha
        simp [StatusNotFound, StatusInternalServerError, hl]
      · intro a ha _
        simp
      · simp [StatusOK, StatusInternalServerError, hl]
      · simp [StatusOK, StatusInternalServerError]
      · simp
    · rw [hr]
      refine ⟨by simp [StatusBadRequest, StatusNotFound], ?_, ?_, ?_, ?_, ?_, rfl, hvalue⟩
      · intro a ha
        cases ha
        simp only [true_iff]
        exact ⟨secrets, hl, hnone⟩
      · intro a ha hcause
        cases ha
        exfalso
        rcases hcause with ⟨err, h1⟩ | ⟨secrets1, s1, h1, h2, _⟩
          | ⟨secrets1, s1, rmErr, h1, h2, _⟩
        · rw [hl] at h1
          cases h1
        · rw [hl] at h1
          cases h1
          have := List.find?_some h2
          exact hnone s1 (List.mem_of_find?_eq_some h2) (by simpa [hasLabel] using this)
        · rw [hl] at h1
          cases h1
          have := List.find?_some h2
          exact hnone s1 (List.mem_of_find?_eq_some h2) (by simpa [hasLabel] using this)
      · simp only [StatusOK, StatusNotFound]
        constructor
        · intro h
          cases h
        · rintro ⟨a, secrets1, s1, ha, h1, h2, _⟩
          cases ha
          rw [hl] at h1
          cases h1
          have := List.find?_some h2
          exact absurd (by simpa [hasLabel] using this)
            (hnone s1 (List.mem_of_find?_eq_some h2))
      · simp [StatusOK, StatusNotFound]
      · simp
    · have hmem := List.mem_of_find?_eq_some hf
      have hlab : mapIndex s.Spec.Labels openFaasSecretNameLabel = apiSecret.Name := by
        have := List.find?_some hf
        simpa [hasLabel] using this
      rw [hr]
      refine ⟨by simp [StatusBadRequest, StatusInternalServerError], ?_, ?_, ?_, ?_, ?_, rfl,
        hvalue⟩
      · intro a ha
        cases ha
        simp only [StatusNotFound, StatusInternalServerError]
        constructor
        · intro h
          cases h
        · rintro ⟨secrets1, h1, h2⟩
          rw [hl] at h1
          cases h1
          exact absurd hlab (h2 s hmem)
      · intro a ha _
        simp
      · simp only [StatusOK, StatusInternalServerError]
        constructor
        · intro h
          cases h
        · rintro ⟨a, secrets1, s1, ha, h1, h2, h3, _⟩
          cases ha
          rw [hl] at h1
          cases h1
          rw [hf] at h2
          cases h2
          exact absurd h3 hp
      · simp [StatusOK, StatusInternalServerError]
      · simp
    · have hmem := List.mem_of_find?_eq_some hf
      have hlab : mapIndex s.Spec.Labels openFaasSecretNameLabel = apiSecret.Name := by
        have := List.find?_some hf
        simpa [hasLabel] using this
      rw [hr]
      refine ⟨by simp [StatusBadRequest, StatusInternalServerError], ?_, ?_, ?_, ?_, ?_, rfl,
        hvalue⟩
      · intro a ha
        cases ha
        simp only [StatusNotFound, StatusInternalServerError]
        constructor
        · intro h
          cases h
        · rintro ⟨secrets1, h1, h2⟩
          rw [hl] at h1
          cases h1
          exact absurd hlab (h2 s hmem)
      · intro a ha _
        simp
      · simp only [StatusOK, StatusInternalServerError]
        constructor
        · intro h
          cases h
        · rintro ⟨a, secrets1, s1, ha, h1, h2, _, h4⟩
          cases ha
          rw [hl] at h1
          cases h1
          rw [hf] at h2
          cases h2
          rw [hrm] at h4
          cases h4
      · simp [StatusOK, StatusInternalServerError]
      · simp
    · have hmem := List.mem_of_find?_eq_some hf
      have hlab : mapIndex s.Spec.Labels openFaasSecretNameLabel = apiSecret.Name := by
        have := List.find?_some hf
        simpa [hasLabel] using this
      rw [hr]
      refine ⟨by simp [StatusBadRequest, StatusOK], ?_, ?_, ?_, ?_, ?_, rfl, hvalue⟩
      · intro a ha
        cases ha
        simp only [StatusNotFound, StatusOK]
        constructor
        · intro h
          cases h
        · rintro ⟨secrets1, h1, h2⟩
          rw [hl] at h1
          cases h1
          exact absurd hlab (h2 s hmem)
      · intro a ha hcause
        cases ha
        exfalso
        rcases hcause with ⟨err, h1⟩ | ⟨secrets1, s1, h1, h2, h3⟩
          | ⟨secrets1, s1, rmErr, h1, h2, _, h4⟩
        · rw [hl] at h1
          cases h1
        · rw [hl] at h1
          cases h1
          rw [hf] at h2
          cases h2
          exact h3 hp
        · rw [hl] at h1
          cases h1
          rw [hf] at h2
          cases h2
          rw [hrm] at h4
          cases h4
      · simp only [true_iff]
        exact ⟨apiSecret, secrets, s, rfl, hl, hf, hp, hrm⟩
      · simp
      · simp

/-! ## Theorems: create -/

/-- C8: for a body that deserializes to (Name, Value), `createNewSecret` adds exactly one
call to the log, a `SecretCreate` whose spec has name `ProjectSpecificName(Name)`, labels
binding exactly the secret-name label to Name and the project label to the configured
project, and data Value; it returns (201, no body, no error) when that call succeeds and
(500, no body, an error carrying the orchestrator's message) when it fails. For a body that
does not deserialize it returns 400 with an error and leaves the world, log included,
unchanged. -/
theorem createNewSecret_postcondition (e : Env) (c : SecretAPIClient σ) (body : String)
    (w : World σ) :
    (∀ apiSecret, e.jsonUnmarshal body = .ok apiSecret →
      ∃ spec, (createNewSecret e c body w).2.calls = w.calls ++ [Call.SecretCreate spec]
        ∧ (createNewSecret e c body w).2.orch = (c.SecretCreate spec w.orch).2
        ∧ spec.Name = e.ProjectSpecificName apiSecret.Name
        ∧ (∀ key, mapLookup spec.Labels key
            = if key = openFaasSecretNameLabel then some apiSecret.Name
              else if key = e.ProjectLabel then some e.NFFaaSDockerProject
              else none)
        ∧ spec.Data = apiSecret.Value
        ∧ (∀ id, (c.SecretCreate spec w.orch).1 = .ok id →
            (createNewSecret e c body w).1 = ⟨StatusCreated, none, none⟩)
        ∧ (∀ err, (c.SecretCreate spec w.orch).1 = .error err →
            (createNewSecret e c body w).1
              = ⟨StatusInternalServerError, none,
                  some ("error creating secret in secretPostHandler: " ++ err)⟩))
    ∧ (∀ err, e.jsonUnmarshal body = .error err →
        createNewSecret e c body w
          = (⟨StatusBadRequest, none,
              some ("error unmarshalling body to json in secretPostHandler: " ++ err)⟩, w)) := by
  constructor
  · intro apiSecret hb
    refine ⟨createSpec e apiSecret, ?_, ?_, rfl, createSpec_labels e apiSecret, rfl, ?_, ?_⟩
    · simp only [createNewSecret, hb, callSecretCreate]
      cases h : (c.SecretCreate (createSpec e apiSecret) w.orch).1 <;> simp [h]
    · simp only [createNewSecret, hb, callSecretCreate]
      cases h : (c.SecretCreate (createSpec e apiSecret) w.orch).1 <;> simp [h]
    · intro id h
      simp only [createNewSecret, hb, callSecretCreate, h]
    · intro err h
      simp only [createNewSecret, hb, callSecretCreate, h]
  · intro err hb
    simp only [createNewSecret, hb]

/-! ## Theorems: list -/

theorem getSecretsLoop_eq (secrets : List Secret) (results : List ApiSecret) :
    getSecretsLoop secrets results = results ++ secrets.map toApiSecret := by
  induction secrets generalizing results with
  | nil => simp [getSecretsLoop]
  | cons s rest ih => simp [getSecretsLoop, ih, toApiSecret]

theorem getSecrets_fst (e : Env) (c : SecretAPIClient σ) (body : String) (w : World σ) :
    (getSecrets e c body w).1
      = match (c.SecretList ⟨[]⟩ w.orch).1 with
        | .error err =>
          ⟨StatusInternalServerError, none,
            some ("cannot get secrets with label: " ++ e.ProjectLabel ++ " == "
              ++ e.NFFaaSDockerProject ++ " in secretGetHandler: " ++ err)⟩
        | .ok secrets =>
          match e.jsonMarshal
            ((secrets.filter (hasLabel e.ProjectLabel e.NFFaaSDockerProject)).map
              toApiSecret) with
          | .error marshalErr =>
            ⟨StatusInternalServerError, none,
              some ("error marshalling secrets to json: " ++ marshalErr)⟩
          | .ok resultsJSON => ⟨StatusOK, some resultsJSON, none⟩ := by
  have h1 := getSecretsWithLabel_fst c e.ProjectLabel e.NFFaaSDockerProject w
  have h2 := getSecretsWithLabel_snd c e.ProjectLabel e.NFFaaSDockerProject w
  unfold getSecrets
  cases hl : (c.SecretList ⟨[]⟩ w.orch).1 with
  | error err =>
    rw [hl] at h1
    have hg : getSecretsWithLabel c e.ProjectLabel e.NFFaaSDockerProject w
        = (.error err, ⟨(c.SecretList ⟨[]⟩ w.orch).2, w.calls ++ [Call.SecretList ⟨[]⟩]⟩) :=
      Prod.ext h1 h2
    simp only [hg]
  | ok secrets =>
    rw [hl] at h1
    have hg : getSecretsWithLabel c e.ProjectLabel e.NFFaaSDockerProject w
        = (.ok (secrets.filter (hasLabel e.ProjectLabel e.NFFaaSDockerProject)),
            ⟨(c.SecretList ⟨[]⟩ w.orch).2, w.calls ++ [Call.SecretList ⟨[]⟩]⟩) :=
      Prod.ext h1 h2
    simp only [hg, getSecretsLoop_eq, List.nil_append]
    cases e.jsonMarshal
      ((secrets.filter (hasLabel e.ProjectLabel e.NFFaaSDockerProject)).map toApiSecret) <;> rfl

/-- C9: `getSecrets` ignores the request body. When the listing succeeds it returns status
200 and the serialization of the sequence that maps, in listing order, each listed secret
whose project label equals the configured project to the pair (its secret-name label, its
data); secrets of other projects contribute no pair. When the listing fails it returns
status 500 with no body. -/
theorem getSecrets_list (e : Env) (c : SecretAPIClient σ) (body : String) (w : World σ) :
    (∀ body2, getSecrets e c body2 w = getSecrets e c body w)
    ∧ (∀ secrets resultsJSON, (c.SecretList ⟨[]⟩ w.orch).1 = .ok secrets →
        e.jsonMarshal
          ((secrets.filter
              (fun s => decide (mapIndex s.Spec.Labels e.ProjectLabel = e.NFFaaSDockerProject))).map
            (fun s => ⟨mapIndex s.Spec.Labels openFaasSecretNameLabel, s.Spec.Data⟩))
          = .ok resultsJSON →
        (getSecrets e c body w).1 = ⟨StatusOK, some resultsJSON, none⟩)
    ∧ (∀ err, (c.SecretList ⟨[]⟩ w.orch).1 = .error err →
        (getSecrets e c body w).1.status = StatusInternalServerError
          ∧ (getSecrets e c body w).1.body = none
          ∧ (getSecrets e c body w).1.err.isSome = true) := by
  refine ⟨fun body2 => rfl, ?_, ?_⟩
  · intro secrets resultsJSON hl hm
    rw [getSecrets_fst, hl]
    have hm2 : e.jsonMarshal
        ((secrets.filter (hasLabel e.ProjectLabel e.NFFaaSDockerProject)).map toApiSecret)
          = .ok resultsJSON := hm
    simp only [hm2]
  · intro err hl
    rw [getSecrets_fst, hl]
    simp

/-! ## Theorems: create then list -/

theorem projectNamed_nil (e : Env) : ProjectNamed e [] := by
  intro s hs
  cases hs

theorem projectNamed_create (e : Env) (body : String) (st : List Secret) (calls : List Call)
    (hinv : ProjectNamed e st) :
    ProjectNamed e (createNewSecret e swarmClient body ⟨st, calls⟩).2.orch := by
  cases hb : e.jsonUnmarshal body with
  | error err =>
    simp only [createNewSecret, hb]
    exact hinv
  | ok apiSecret =>
    rw [createNewSecret_swarm e body apiSecret st calls hb]
    by_cases h : st.any (fun s => decide (s.Spec.Name = e.ProjectSpecificName apiSecret.Name))
    · simp only [h, if_true]
      exact hinv
    · simp only [h, if_false, Bool.false_eq_true]
      intro s hs hp
      rcases List.mem_append.mp hs with h1 | h1
      · exact hinv s h1 hp
      · have h2 : s = ⟨freshID st, 0, createSpec e apiSecret⟩ := by simpa using h1
        subst h2
        simp only
        rw [createSpec_nameLabel]
        rfl

theorem projectNamed_create_other (e0 e : Env) (body : String) (st : List Secret)
    (calls : List Call) (hlabel : e.ProjectLabel = e0.ProjectLabel)
    (hkey : e.ProjectLabel ≠ openFaasSecretNameLabel)
    (hproj : e.NFFaaSDockerProject ≠ e0.NFFaaSDockerProject) (hinv : ProjectNamed e0 st) :
    ProjectNamed e0 (createNewSecret e swarmClient body ⟨st, calls⟩).2.orch := by
  cases hb : e.jsonUnmarshal body with
  | error err =>
    simp only [createNewSecret, hb]
    exact hinv
  | ok apiSecret =>
    rw [createNewSecret_swarm e body apiSecret st calls hb]
    by_cases h : st.any (fun s => decide (s.Spec.Name = e.ProjectSpecificName apiSecret.Name))
    · simp only [h, if_true]
      exact hinv
    · simp only [h, if_false, Bool.false_eq_true]
      intro s hs hp
      rcases List.mem_append.mp hs with h1 | h1
      · exact hinv s h1 hp
      · have h2 : s = ⟨freshID st, 0, createSpec e apiSecret⟩ := by simpa using h1
        subst h2
        rw [← hlabel] at hp
        simp only at hp
        rw [createSpec_projectLabel e apiSecret hkey] at hp
        exact absurd hp hproj

theorem projectNamed_delete (e0 e : Env) (body : String) (st : List Secret)
    (calls : List Call) (hinv : ProjectNamed e0 st) :
    ProjectNamed e0 (deleteSecret e swarmClient body ⟨st, calls⟩).2.orch := by
  have hsub : ∀ s ∈ (deleteSecret e swarmClient body ⟨st, calls⟩).2.orch, s ∈ st := by
    cases hb : e.jsonUnmarshal body with
    | error err =>
      rw [deleteSecret_malformed e swarmClient body _ err hb]
      exact fun s hs => hs
    | ok apiSecret =>
      cases hg : (getSecretWithName e swarmClient apiSecret.Name ⟨st, calls⟩).1 with
      | mk sec status err =>
        cases err with
        | some getErr =>
          rw [deleteSecret_getFailed e swarmClient body _ apiSecret status getErr sec hb hg]
          simp [swarmClient_list_all]
        | none =>
          cases sec with
          | none =>
            rcases getSecretWithName_cases e swarmClient apiSecret.Name ⟨st, calls⟩ with
              ⟨_, _, hr⟩ | ⟨_, _, _, hr⟩ | ⟨_, _, _, _, _, _, _, hr⟩ | ⟨_, _, _, _, _, _, _, hr⟩
            all_goals
              rw [hg] at hr
              cases hr
          | some s1 =>
            rw [deleteSecret_found e swarmClient body _ apiSecret status s1 hb hg]
            simp only [swarmClient_list_all]
            by_cases hany : st.any (fun s => decide (s.ID = s1.ID))
            · simp only [swarmClient, hany, if_true]
              intro s hs
              exact (List.mem_filter.mp hs).1
            · simp only [swarmClient, hany, if_false, Bool.false_eq_true]
              exact fun s hs => hs
  exact fun s hs hp => hinv s (hsub s hs) hp

/-- C10: in the orchestrator model, from a state that satisfies the project's naming
invariant, a successful `createNewSecret` of (Name, Value) followed by `getSecrets` under
the same project serializes a sequence that contains (Name, Value) exactly once, and this
is its only entry with that Name. -/
theorem create_then_list (e : Env) (st : List Secret) (calls : List Call)
    (body body2 name value : String)
    (hkey : e.ProjectLabel ≠ openFaasSecretNameLabel)
    (hinv : ProjectNamed e st)
    (hbody : e.jsonUnmarshal body = .ok ⟨name, value⟩)
    (hcreate : (createNewSecret e swarmClient body ⟨st, calls⟩).1 = ⟨StatusCreated, none, none⟩) :
    ∃ results : List ApiSecret,
      (getSecrets e swarmClient body2 (createNewSecret e swarmClient body ⟨st, calls⟩).2).1
          = (match e.jsonMarshal results with
            | .error marshalErr =>
              ⟨StatusInternalServerError, none,
                some ("error marshalling secrets to json: " ++ marshalErr)⟩
            | .ok resultsJSON => ⟨StatusOK, some resultsJSON, none⟩)
        ∧ results.count ⟨name, value⟩ = 1
        ∧ results.filter (fun a => decide (a.Name = name)) = [⟨name, value⟩] := by
  rw [createNewSecret_swarm e body ⟨name, value⟩ st calls hbody] at hcreate ⊢
  by_cases h : st.any (fun s => decide (s.Spec.Name = e.ProjectSpecificName name))
  · simp [h, StatusCreated, StatusInternalServerError] at hcreate
  · simp only [h, if_false, Bool.false_eq_true]
    have hold : ∀ a ∈ (st.filter (hasLabel e.ProjectLabel e.NFFaaSDockerProject)).map
        toApiSecret, a.Name ≠ name := by
      intro a ha hname
      obtain ⟨s, hs, hsa⟩ := List.mem_map.mp ha
      have hmem := (List.mem_filter.mp hs).1
      have hp : mapIndex s.Spec.Labels e.ProjectLabel = e.NFFaaSDockerProject := by
        simpa [hasLabel] using (List.mem_filter.mp hs).2
      have hn : mapIndex s.Spec.Labels openFaasSecretNameLabel = name := by
        rw [← hsa] at hname
        exact hname
      have hphys := hinv s hmem hp
      rw [hn] at hphys
      apply h
      exact List.any_eq_true.mpr ⟨s, hmem, by simpa using hphys⟩
    have hnew : hasLabel e.ProjectLabel e.NFFaaSDockerProject
        ⟨freshID st, 0, createSpec e ⟨name, value⟩⟩ = true := by
      simp [hasLabel, createSpec_projectLabel e ⟨name, value⟩ hkey]
    have hapi : toApiSecret ⟨freshID st, 0, createSpec e ⟨name, value⟩⟩ = ⟨name, value⟩ := by
      simp only [toApiSecret, createSpec_nameLabel]
      rfl
    refine ⟨(st.filter (hasLabel e.ProjectLabel e.NFFaaSDockerProject)).map toApiSecret
      ++ [⟨name, value⟩], ?_, ?_, ?_⟩
    · rw [getSecrets_fst, swarmClient_list_all]
      simp only [List.filter_append, List.map_append, List.filter_cons, hnew, if_true,
        List.filter_nil, List.map_cons, List.map_nil, hapi]
    · rw [List.count_append]
      have h0 : List.count (⟨name, value⟩ : ApiSecret)
          ((st.filter (hasLabel e.ProjectLabel e.NFFaaSDockerProject)).map toApiSecret) = 0 := by
        apply List.count_eq_zero.mpr
        intro hin
        exact hold _ hin rfl
      rw [h0]
      simp
    · rw [List.filter_append]
      have h0 : ((st.filter (hasLabel e.ProjectLabel e.NFFaaSDockerProject)).map
          toApiSecret).filter (fun a => decide (a.Name = name)) = [] := by
        apply List.filter_eq_nil_iff.mpr
        intro a ha
        simpa using hold a ha
      rw [h0]
      simp

theorem create_then_list_witness :
    ∃ results : List ApiSecret,
      (getSecrets (sampleEnv "acme") swarmClient ""
          (createNewSecret (sampleEnv "acme") swarmClient "db-pass=s3cr3t" ⟨[], []⟩).2).1
          = (match (sampleEnv "acme").jsonMarshal results with
            | .error marshalErr =>
              ⟨StatusInternalServerError, none,
                some ("error marshalling secrets to json: " ++ marshalErr)⟩
            | .ok resultsJSON => ⟨StatusOK, some resultsJSON, none⟩)
        ∧ results.count ⟨"db-pass", "s3cr3t"⟩ = 1
        ∧ results.filter (fun a => decide (a.Name = "db-pass")) = [⟨"db-pass", "s3cr3t"⟩] :=
  create_then_list (sampleEnv "acme") [] [] "db-pass=s3cr3t" "" "db-pass" "s3cr3t"
    (by decide) (projectNamed_nil _) (by decide) (by decide)

/-! ## Theorems: empty request -/

/-- C15: `makeSecretsArray` applied to an empty list of secret names returns an empty
reference sequence and no error, for every client and every world, and returns the world
unchanged: no orchestrator call is logged and the orchestrator state is not touched, so a
listing call that would fail is never made. -/
theorem makeSecretsArray_empty (e : Env) (c : SecretAPIClient σ) (w : World σ) :
    makeSecretsArray e c [] w = (.ok [], w) := by
  simp [makeSecretsArray]

/-! ## Theorems: unlabelled secrets -/

theorem mapIndex_absent (m : GoMap String) (key : String) (h : mapLookup m key = none) :
    mapIndex m key = "" := by
  simp [mapIndex, h]

/-- C17 (as amended): for every non-empty configured project identity and every listing, a
secret whose label set does not contain the project label key is not in the result of
`getSecretsWithLabel(ProjectLabel, project)` and is not the secret returned by
`getSecretWithName`, whatever the requested name (the empty name included). -/
theorem unlabelled_invisible (e : Env) (c : SecretAPIClient σ) (w : World σ) (s : Secret)
    (hproject : e.NFFaaSDockerProject ≠ "")
    (hs : mapLookup s.Spec.Labels e.ProjectLabel = none) :
    (∀ result, (getSecretsWithLabel c e.ProjectLabel e.NFFaaSDockerProject w).1 = .ok result →
        s ∉ result)
    ∧ (∀ name, (getSecretWithName e c name w).1.secret ≠ some s) := by
  have hidx : mapIndex s.Spec.Labels e.ProjectLabel ≠ e.NFFaaSDockerProject := by
    rw [mapIndex_absent _ _ hs]
    exact fun h => hproject h.symm
  constructor
  · intro result hres hmem
    rw [getSecretsWithLabel_fst] at hres
    cases hl : (c.SecretList ⟨[]⟩ w.orch).1 with
    | error err => simp [hl] at hres
    | ok secrets =>
      simp only [hl, Except.ok.injEq] at hres
      subst hres
      have := (List.mem_filter.mp hmem).2
      exact hidx (by simpa [hasLabel] using this)
  · intro name hfound
    rcases getSecretWithName_cases e c name w with
      ⟨_, _, hr⟩ | ⟨_, _, _, hr⟩ | ⟨_, s1, _, _, _, _, hp, hr⟩ | ⟨_, _, _, _, _, _, _, hr⟩
    · simp [hr] at hfound
    · simp [hr] at hfound
    · rw [hr] at hfound
      have h1 : s1 = s := by simpa using hfound
      subst h1
      exact hidx hp
    · simp [hr] at hfound

theorem unlabelled_invisible_witness :
    (∀ result, (getSecretsWithLabel (fixedClient unlabelledListing) (sampleEnv "p").ProjectLabel
          (sampleEnv "p").NFFaaSDockerProject ⟨(), []⟩).1 = .ok result →
        (⟨"id1", 0, ⟨"x", [], "v"⟩⟩ : Secret) ∉ result)
    ∧ (∀ name, (getSecretWithName (sampleEnv "p") (fixedClient unlabelledListing) name
          ⟨(), []⟩).1.secret ≠ some ⟨"id1", 0, ⟨"x", [], "v"⟩⟩) :=
  unlabelled_invisible (sampleEnv "p") (fixedClient unlabelledListing) ⟨(), []⟩
    ⟨"id1", 0, ⟨"x", [], "v"⟩⟩ (by decide) (by decide)

/-- C17 (counterexample): with the empty project identity, a listed secret without any
label is in the result of `getSecretsWithLabel(ProjectLabel, "")` and is the secret
`getSecretWithName` returns for the empty name. -/
theorem unlabelled_visible_counterexample :
    mapLookup (⟨"id1", 0, ⟨"x", [], "v"⟩⟩ : Secret).Spec.Labels (sampleEnv "").ProjectLabel = none
      ∧ (getSecretsWithLabel (fixedClient unlabelledListing) (sampleEnv "").ProjectLabel
          (sampleEnv "").NFFaaSDockerProject ⟨(), []⟩).1 = .ok [⟨"id1", 0, ⟨"x", [], "v"⟩⟩]
      ∧ (getSecretWithName (sampleEnv "") (fixedClient unlabelledListing) "" ⟨(), []⟩).1
          = ⟨some ⟨"id1", 0, ⟨"x", [], "v"⟩⟩, 200, none⟩ := by
  decide

/-! ## Theorems: handler status -/

/-- Outcome of `getSecrets`: 500 with an error and no body, or 200 with a body. -/
theorem getSecrets_response (e : Env) (c : SecretAPIClient σ) (body : String) (w : World σ) :
    ((getSecrets e c body w).1.status = StatusInternalServerError
        ∧ (getSecrets e c body w).1.body = none
        ∧ (getSecrets e c body w).1.err.isSome = true)
    ∨ (∃ resultsJSON, (getSecrets e c body w).1 = ⟨StatusOK, some resultsJSON, none⟩) := by
  rw [getSecrets_fst]
  cases (c.SecretList ⟨[]⟩ w.orch).1 with
  | error err => exact Or.inl ⟨rfl, rfl, rfl⟩
  | ok secrets =>
    simp only
    cases e.jsonMarshal
      ((secrets.filter (hasLabel e.ProjectLabel e.NFFaaSDockerProject)).map toApiSecret) with
    | error marshalErr => exact Or.inl ⟨rfl, rfl, rfl⟩
    | ok resultsJSON => exact Or.inr ⟨resultsJSON, rfl⟩

theorem createNewSecret_response (e : Env) (c : SecretAPIClient σ) (body : String)
    (w : World σ) :
    ((createNewSecret e c body w).1.status = StatusCreated
        ∨ (createNewSecret e c body w).1.status = StatusBadRequest
        ∨ (createNewSecret e c body w).1.status = StatusInternalServerError)
    ∧ (createNewSecret e c body w).1.body = none := by
  unfold createNewSecret
  cases e.jsonUnmarshal body with
  | error err => exact ⟨Or.inr (Or.inl rfl), rfl⟩
  | ok apiSecret =>
    simp only [callSecretCreate]
    cases (c.SecretCreate (createSpec e apiSecret) w.orch).1 with
    | error err => exact ⟨Or.inr (Or.inr rfl), rfl⟩
    | ok id => exact ⟨Or.inl rfl, rfl⟩

theorem deleteSecret_response (e : Env) (c : SecretAPIClient σ) (body : String)
    (w : World σ) :
    ((deleteSecret e c body w).1.status = StatusOK
        ∨ (deleteSecret e c body w).1.status = StatusBadRequest
        ∨ (deleteSecret e c body w).1.status = StatusNotFound
        ∨ (deleteSecret e c body w).1.status = StatusInternalServerError)
    ∧ (deleteSecret e c body w).1.body = none := by
  cases hb : e.jsonUnmarshal body with
  | error err =>
    rw [deleteSecret_malformed e c body w err hb]
    exact ⟨Or.inr (Or.inl rfl), rfl⟩
  | ok apiSecret =>
    rcases deleteSecret_outcome e c body w apiSecret hb with
      ⟨_, _, _, hr⟩ | ⟨_, _, _, _, hr⟩ | ⟨_, _, _, _, _, _, hr⟩
        | ⟨_, _, _, _, _, _, _, _, hr⟩ | ⟨_, _, _, _, _, _, hr⟩
    · rw [hr]
      exact ⟨Or.inr (Or.inr (Or.inr rfl)), rfl⟩
    · rw [hr]
      exact ⟨Or.inr (Or.inr (Or.inl rfl)), rfl⟩
    · rw [hr]
      exact ⟨Or.inr (Or.inr (Or.inr rfl)), rfl⟩
    · rw [hr]
      exact ⟨Or.inr (Or.inr (Or.inr rfl)), rfl⟩
    · rw [hr]
      exact ⟨Or.inl rfl, rfl⟩

/-- C18 (the code at the failing input): for a method outside the four cases of the
switch, here PATCH, no case sets the status, and the handler passes the zero value 0 to
`WriteHeader`, for every body, client and world. -/
theorem handler_unknown_method (e : Env) (c : SecretAPIClient σ) (rw : ResponseWriter)
    (body : String) (w : World σ) :
    MakeSecretsHandler e c rw ⟨"PATCH", .ok body⟩ w = ([WriterCall.WriteHeader 0], w) := by
  have h1 : ¬ ("PATCH" = "GET") := by decide
  have h2 : ¬ ("PATCH" = "POST") := by decide
  have h3 : ¬ ("PATCH" = "PUT") := by decide
  have h4 : ¬ ("PATCH" = "DELETE") := by decide
  simp [MakeSecretsHandler, dispatch, h1, h2, h3, h4]

/-- For the four methods of the switch, every status the handler passes to `WriteHeader`
is one of 200, 201, 400, 404, 405, 500, and a body is written only for a GET whose
`getSecrets` succeeded with that body. -/
theorem handler_known_methods (e : Env) (c : SecretAPIClient σ) (rw : ResponseWriter)
    (r : Request) (w : World σ)
    (hm : r.Method = "GET" ∨ r.Method = "POST" ∨ r.Method = "PUT" ∨ r.Method = "DELETE") :
    ∀ call ∈ (MakeSecretsHandler e c rw r w).1,
      (∀ status, call = WriterCall.WriteHeader status →
        status = 200 ∨ status = 201 ∨ status = 400 ∨ status = 404 ∨ status = 405
          ∨ status = 500)
      ∧ (∀ b, call = WriterCall.Write b →
          r.Method = "GET" ∧ ∃ body, r.readBody = .ok body
            ∧ (getSecrets e c body w).1 = ⟨StatusOK, some b, none⟩) := by
  unfold MakeSecretsHandler
  cases hrb : r.readBody with
  | error err =>
    intro call hcall
    have h1 : call = WriterCall.WriteHeader StatusInternalServerError := by simpa using hcall
    subst h1
    simp [StatusInternalServerError]
  | ok body =>
    have hd : ((dispatch e c r.Method body w).1.status = 200
          ∨ (dispatch e c r.Method body w).1.status = 201
          ∨ (dispatch e c r.Method body w).1.status = 400
          ∨ (dispatch e c r.Method body w).1.status = 404
          ∨ (dispatch e c r.Method body w).1.status = 405
          ∨ (dispatch e c r.Method body w).1.status = 500)
        ∧ (∀ b, (dispatch e c r.Method body w).1.body = some b →
            (dispatch e c r.Method body w).1.err = none →
            r.Method = "GET" ∧ (getSecrets e c body w).1 = ⟨StatusOK, some b, none⟩) := by
      have n1 : ¬ ("POST" = "GET") := by decide
      have n2 : ¬ ("PUT" = "GET") := by decide
      have n3 : ¬ ("PUT" = "POST") := by decide
      have n4 : ¬ ("DELETE" = "GET") := by decide
      have n5 : ¬ ("DELETE" = "POST") := by decide
      have n6 : ¬ ("DELETE" = "PUT") := by decide
      rcases hm with h | h | h | h
      · simp only [dispatch, h, if_true]
        rcases getSecrets_response e c body w with ⟨h1, h2, _⟩ | ⟨js, h1⟩
        · refine ⟨Or.inr (Or.inr (Or.inr (Or.inr (Or.inr h1)))), ?_⟩
          intro b hb
          rw [h2] at hb
          cases hb
        · rw [h1]
          refine ⟨Or.inl rfl, ?_⟩
          intro b hb _
          have h2 : js = b := by simpa using hb
          subst h2
          exact ⟨trivial, rfl⟩
      · simp only [dispatch, h, n1, if_true, if_false]
        obtain ⟨h1, h2⟩ := createNewSecret_response e c body w
        refine ⟨?_, ?_⟩
        · rcases h1 with h1 | h1 | h1
          · exact Or.inr (Or.inl h1)
          · exact Or.inr (Or.inr (Or.inl h1))
          · exact Or.inr (Or.inr (Or.inr (Or.inr (Or.inr h1))))
        · intro b hb
          rw [h2] at hb
          cases hb
      · simp only [dispatch, h, n2, n3, if_true, if_false]
        refine ⟨Or.inr (Or.inr (Or.inr (Or.inr (Or.inl rfl)))), ?_⟩
        intro b hb
        cases hb
      · simp only [dispatch, h, n4, n5, n6, if_true, if_false]
        obtain ⟨h1, h2⟩ := deleteSecret_response e c body w
        refine ⟨?_, ?_⟩
        · rcases h1 with h1 | h1 | h1 | h1
          · exact Or.inl h1
          · exact Or.inr (Or.inr (Or.inl h1))
          · exact Or.inr (Or.inr (Or.inr (Or.inl h1)))
          · exact Or.inr (Or.inr (Or.inr (Or.inr (Or.inr h1))))
        · intro b hb
          rw [h2] at hb
          cases hb
    dsimp only
    revert hd
    generalize dispatch e c r.Method body w = d
    obtain ⟨⟨status, rbody, rerr⟩, w1⟩ := d
    intro hd
    obtain ⟨hstatus, hbody⟩ := hd
    simp only at hstatus hbody
    cases rerr with
    | some err =>
      intro call hcall
      have h1 : call = WriterCall.WriteHeader status := by simpa using hcall
      subst h1
      simpa using hstatus
    | none =>
      cases rbody with
      | none =>
        intro call hcall
        have h1 : call = WriterCall.WriteHeader status := by simpa using hcall
        subst h1
        simpa using hstatus
      | some b =>
        obtain ⟨hget, hres⟩ := hbody b rfl rfl
        cases hw : rw.Write b with
        | some werr =>
          intro call hcall
          simp only [hw] at hcall
          have h1 : call = WriterCall.Write b
              ∨ call = WriterCall.WriteHeader StatusInternalServerError := by
            simpa using hcall
          rcases h1 with h1 | h1
          · subst h1
            simp only [WriterCall.Write.injEq, forall_eq', reduceCtorEq, false_implies,
              implies_true, true_and]
            exact ⟨hget, body, rfl, hres⟩
          · subst h1
            simp [StatusInternalServerError]
        | none =>
          intro call hcall
          simp only [hw] at hcall
          have h1 : call = WriterCall.Write b ∨ call = WriterCall.WriteHeader status := by
            simpa using hcall
          rcases h1 with h1 | h1
          · subst h1
            simp only [WriterCall.Write.injEq, forall_eq', reduceCtorEq, false_implies,
              implies_true, true_and]
            exact ⟨hget, body, rfl, hres⟩
          · subst h1
            simpa using hstatus

/-! ## Theorems: delete effect -/

theorem swarmClient_remove_listed (st : List Secret) (s : Secret) (hs : s ∈ st) :
    swarmClient.SecretRemove s.ID st = (none, st.filter (fun t => decide (t.ID ≠ s.ID))) := by
  have hany : st.any (fun t => decide (t.ID = s.ID)) = true :=
    List.any_eq_true.mpr ⟨s, hs, by simp⟩
  simp only [swarmClient, hany, if_true]

/-- C11 (as amended): in the orchestrator model, for every state and project P and every
body that deserializes: a name carried by no stored secret gives 404 and leaves the state
unchanged; a name whose first stored carrier belongs to another project gives 500 and
leaves the state unchanged; a name whose first stored carrier belongs to P gives 200 and
removes the secrets with that carrier's identifier, and then, provided every stored carrier
of the name under P has that identifier, `getSecrets` under P serializes a sequence with no
entry of that name. -/
theorem delete_effect (e : Env) (st : List Secret) (calls : List Call) (body : String)
    (apiSecret : ApiSecret) (hbody : e.jsonUnmarshal body = .ok apiSecret) :
    ((∀ s ∈ st, mapIndex s.Spec.Labels openFaasSecretNameLabel ≠ apiSecret.Name) →
        (deleteSecret e swarmClient body ⟨st, calls⟩).1.status = StatusNotFound
          ∧ (deleteSecret e swarmClient body ⟨st, calls⟩).2.orch = st)
    ∧ (∀ s, st.find? (hasLabel openFaasSecretNameLabel apiSecret.Name) = some s →
        mapIndex s.Spec.Labels e.ProjectLabel ≠ e.NFFaaSDockerProject →
        (deleteSecret e swarmClient body ⟨st, calls⟩).1.status = StatusInternalServerError
          ∧ (deleteSecret e swarmClient body ⟨st, calls⟩).2.orch = st)
    ∧ (∀ s, st.find? (hasLabel openFaasSecretNameLabel apiSecret.Name) = some s →
        mapIndex s.Spec.Labels e.ProjectLabel = e.NFFaaSDockerProject →
        (deleteSecret e swarmClient body ⟨st, calls⟩).1 = ⟨StatusOK, none, none⟩
          ∧ (deleteSecret e swarmClient body ⟨st, calls⟩).2.orch
              = st.filter (fun t => decide (t.ID ≠ s.ID))
          ∧ ((∀ t ∈ st, mapIndex t.Spec.Labels openFaasSecretNameLabel = apiSecret.Name →
                mapIndex t.Spec.Labels e.ProjectLabel = e.NFFaaSDockerProject → t.ID = s.ID) →
              ∀ body2, ∃ results : List ApiSecret,
                (getSecrets e swarmClient body2 (deleteSecret e swarmClient body ⟨st, calls⟩).2).1
                    = (match e.jsonMarshal results with
                      | .error marshalErr =>
                        ⟨StatusInternalServerError, none,
                          some ("error marshalling secrets to json: " ++ marshalErr)⟩
                      | .ok resultsJSON => ⟨StatusOK, some resultsJSON, none⟩)
                  ∧ ∀ a ∈ results, a.Name ≠ apiSecret.Name)) := by
  have hlist : (swarmClient.SecretList ⟨[]⟩ (⟨st, calls⟩ : World (List Secret)).orch)
      = (.ok st, st) := swarmClient_list_all st
  refine ⟨?_, ?_, ?_⟩
  · intro hnone
    rcases getSecretWithName_cases e swarmClient apiSecret.Name ⟨st, calls⟩ with
      ⟨err, hl, _⟩ | ⟨secrets, _, _, hr⟩ | ⟨secrets, s, hl, _, hmem, hlab, _, _⟩
        | ⟨secrets, s, hl, _, hmem, hlab, _, _⟩
    · rw [hlist] at hl
      cases hl
    · rw [deleteSecret_getFailed e swarmClient body _ apiSecret _ _ _ hbody hr, hlist]
      exact ⟨rfl, rfl⟩
    · rw [hlist] at hl
      cases hl
      exact absurd hlab (hnone s hmem)
    · rw [hlist] at hl
      cases hl
      exact absurd hlab (hnone s hmem)
  · intro s hf hp
    rcases getSecretWithName_cases e swarmClient apiSecret.Name ⟨st, calls⟩ with
      ⟨err, hl, _⟩ | ⟨secrets, hl, hnone, _⟩ | ⟨secrets, s1, hl, hf1, _, _, hp1, _⟩
        | ⟨secrets, s1, _, _, _, _, _, hr⟩
    · rw [hlist] at hl
      cases hl
    · rw [hlist] at hl
      cases hl
      have := List.find?_some hf
      exact absurd (by simpa [hasLabel] using this) (hnone s (List.mem_of_find?_eq_some hf))
    · rw [hlist] at hl
      cases hl
      rw [hf] at hf1
      cases hf1
      exact absurd hp1 hp
    · rw [deleteSecret_getFailed e swarmClient body _ apiSecret _ _ _ hbody hr, hlist]
      exact ⟨rfl, rfl⟩
  · intro s hf hp
    have hmem : s ∈ st := List.mem_of_find?_eq_some hf
    have hget : (getSecretWithName e swarmClient apiSecret.Name ⟨st, calls⟩).1
        = ⟨some s, StatusOK, none⟩ := by
      rcases getSecretWithName_cases e swarmClient apiSecret.Name ⟨st, calls⟩ with
        ⟨err, hl, _⟩ | ⟨secrets, hl, hnone, _⟩ | ⟨secrets, s1, hl, hf1, _, _, _, hr⟩
          | ⟨secrets, s1, hl, hf1, _, _, hp1, _⟩
      · rw [hlist] at hl
        cases hl
      · rw [hlist] at hl
        cases hl
        have := List.find?_some hf
        exact absurd (by simpa [hasLabel] using this) (hnone s hmem)
      · rw [hlist] at hl
        cases hl
        rw [hf] at hf1
        cases hf1
        exact hr
      · rw [hlist] at hl
        cases hl
        rw [hf] at hf1
        cases hf1
        exact absurd hp hp1
    have hdel : deleteSecret e swarmClient body ⟨st, calls⟩
        = (⟨StatusOK, none, none⟩,
            ⟨st.filter (fun t => decide (t.ID ≠ s.ID)),
              calls ++ [Call.SecretList ⟨[]⟩] ++ [Call.SecretRemove s.ID]⟩) := by
      rw [deleteSecret_found e swarmClient body _ apiSecret _ s hbody hget, hlist]
      simp only [swarmClient_remove_listed st s hmem]
    rw [hdel]
    refine ⟨rfl, rfl, ?_⟩
    intro huniq body2
    refine ⟨((st.filter (fun t => decide (t.ID ≠ s.ID))).filter
      (hasLabel e.ProjectLabel e.NFFaaSDockerProject)).map toApiSecret, ?_, ?_⟩
    · rw [getSecrets_fst]
      simp only [swarmClient_list_all]
    · intro a ha hname
      obtain ⟨t, ht, hta⟩ := List.mem_map.mp ha
      have ht1 := List.mem_filter.mp ht
      have ht2 := List.mem_filter.mp ht1.1
      have hpt : mapIndex t.Spec.Labels e.ProjectLabel = e.NFFaaSDockerProject := by
        simpa [hasLabel] using ht1.2
      have hnt : mapIndex t.Spec.Labels openFaasSecretNameLabel = apiSecret.Name := by
        rw [← hta] at hname
        exact hname
      have hid : t.ID ≠ s.ID := by simpa using ht2.2
      exact hid (huniq t ht2.1 hnt hpt)

theorem delete_effect_witness :
    (deleteSecret (sampleEnv "acme") swarmClient "db-pass="
        (createNewSecret (sampleEnv "acme") swarmClient "db-pass=s3cr3t" ⟨[], []⟩).2).1
      = ⟨200, none, none⟩
    ∧ (deleteSecret (sampleEnv "acme") swarmClient "db-pass="
        (createNewSecret (sampleEnv "acme") swarmClient "db-pass=s3cr3t" ⟨[], []⟩).2).2.orch
      = [] :=
  have h := (delete_effect (sampleEnv "acme")
    [⟨"x", 0, ⟨"acme_db-pass", [("com.openfaas.secret", "db-pass"), ("project", "acme")],
      "s3cr3t"⟩⟩]
    [Call.SecretCreate ⟨"acme_db-pass",
      [("com.openfaas.secret", "db-pass"), ("project", "acme")], "s3cr3t"⟩]
    "db-pass=" ⟨"db-pass", ""⟩ (by decide)).2.2
    ⟨"x", 0, ⟨"acme_db-pass", [("com.openfaas.secret", "db-pass"), ("project", "acme")],
      "s3cr3t"⟩⟩ (by decide) (by decide)
  ⟨h.1, h.2.1⟩

/-- C11 (counterexample): in the orchestrator model under project p2, (1) name n is carried
only by a secret of project p1, so it does not exist for p2, yet the delete answers 500
and not 404; (2) name n exists for p2 but a secret of p1 carrying n is stored first, and
the delete answers 500 and not 200; (3) two secrets of p2 carry n, the delete answers 200,
and the following `getSecrets` still reports an entry named n. -/
theorem delete_effect_counterexample :
    ((¬ ∃ s ∈ foreignListing, mapIndex s.Spec.Labels openFaasSecretNameLabel = "n"
          ∧ mapIndex s.Spec.Labels (sampleEnv "p2").ProjectLabel = "p2")
        ∧ (deleteSecret (sampleEnv "p2") swarmClient "n=" ⟨foreignListing, []⟩).1.status = 500)
    ∧ ((∃ s ∈ contestedListing, mapIndex s.Spec.Labels openFaasSecretNameLabel = "n"
          ∧ mapIndex s.Spec.Labels (sampleEnv "p2").ProjectLabel = "p2")
        ∧ (deleteSecret (sampleEnv "p2") swarmClient "n=" ⟨contestedListing, []⟩).1.status = 500)
    ∧ ((deleteSecret (sampleEnv "p2") swarmClient "n=" ⟨doubledListing, []⟩).1.status = 200
        ∧ (getSecrets (sampleEnv "p2") swarmClient ""
            (deleteSecret (sampleEnv "p2") swarmClient "n=" ⟨doubledListing, []⟩).2).1
          = ⟨200, some "n=w", none⟩) := by
  decide

/-! ## Theorems: maps built by a loop of assignments -/

theorem mapLookup_foldl_mapAssign {α ν : Type} (key : α → String) (val : α → ν)
    (l : List α) (m : GoMap ν) (k : String) :
    mapLookup (l.foldl (fun m a => mapAssign m (key a) (val a)) m) k
      = match l.reverse.find? (fun a => decide (key a = k)) with
        | some a => some (val a)
        | none => mapLookup m k := by
  induction l generalizing m with
  | nil => rfl
  | cons a rest ih =>
    simp only [List.foldl_cons, List.reverse_cons, List.find?_append, ih]
    cases hr : rest.reverse.find? (fun a => decide (key a = k)) with
    | some b => simp
    | none =>
      by_cases hk : key a = k
      · subst hk
        simp [List.find?, mapLookup_mapAssign_same]
      · have hk2 : k ≠ key a := fun h => hk h.symm
        simp [List.find?, hk, mapLookup_mapAssign_other _ _ _ _ hk2]

theorem mapLookup_foldl_absent {α ν : Type} (key : α → String) (val : α → ν)
    (l : List α) (m : GoMap ν) (k : String) (h : ∀ a ∈ l, key a ≠ k) :
    mapLookup (l.foldl (fun m a => mapAssign m (key a) (val a)) m) k = mapLookup m k := by
  rw [mapLookup_foldl_mapAssign]
  have hnone : l.reverse.find? (fun a => decide (key a = k)) = none := by
    apply List.find?_eq_none.mpr
    intro a ha
    simpa using h a (List.mem_reverse.mp ha)
  rw [hnone]

theorem mapLookup_foldl_present {α ν : Type} (key : α → String) (val : α → ν)
    (l : List α) (m : GoMap ν) (k : String) (h : ∃ a ∈ l, key a = k) :
    ∃ b ∈ l, key b = k
      ∧ l.reverse.find? (fun a => decide (key a = k)) = some b
      ∧ mapLookup (l.foldl (fun m a => mapAssign m (key a) (val a)) m) k = some (val b) := by
  rw [mapLookup_foldl_mapAssign]
  cases hf : l.reverse.find? (fun a => decide (key a = k)) with
  | none =>
    obtain ⟨a, ha, hk⟩ := h
    have := List.find?_eq_none.mp hf a (List.mem_reverse.mpr ha)
    simp [hk] at this
  | some b =>
    have hb := List.mem_reverse.mp (List.mem_of_find?_eq_some hf)
    have hkb : key b = k := by
      have := List.find?_some hf
      simpa using this
    exact ⟨b, hb, hkb, rfl, rfl⟩

/-! ## Theorems: the loops of the resolver -/

theorem setLoop_ok (e : Env) (secretNames : List String) (secretOpts : List SecretReference)
    (originalSecretNames : GoMap String) (opts1 : List SecretReference) (orig1 : GoMap String)
    (h : setLoop e secretNames secretOpts originalSecretNames = .ok (opts1, orig1)) :
    opts1 = secretOpts ++ secretNames.map (parseOne e)
      ∧ orig1 = recordNames e secretNames originalSecretNames
      ∧ ∀ n ∈ secretNames, e.secretOptSet (optionString e n) = .ok (parseOne e n) := by
  induction secretNames generalizing secretOpts originalSecretNames with
  | nil =>
    simp only [setLoop, Except.ok.injEq, Prod.mk.injEq] at h
    simp [h.1, h.2, recordNames]
  | cons n rest ih =>
    simp only [setLoop] at h
    cases hs : e.secretOptSet
        ("source=" ++ e.ProjectSpecificName n ++ ",target=/var/openfaas/secrets/" ++ n) with
    | error err => simp [hs] at h
    | ok opt =>
      simp only [hs] at h
      obtain ⟨h1, h2, h3⟩ := ih _ _ h
      have hp : parseOne e n = opt := by
        simp only [parseOne, optionString, hs]
      refine ⟨?_, ?_, ?_⟩
      · rw [h1, List.map_cons, hp]
        simp
      · rw [h2]
        rfl
      · intro m hm
        rcases List.mem_cons.mp hm with hm1 | hm1
        · subst hm1
          rw [hp]
          exact hs
        · exact h3 m hm1

theorem setLoop_of_accepted (e : Env) (secretNames : List String)
    (secretOpts : List SecretReference) (originalSecretNames : GoMap String)
    (h : ∀ n ∈ secretNames, ∃ opt, e.secretOptSet (optionString e n) = .ok opt) :
    setLoop e secretNames secretOpts originalSecretNames
      = .ok (secretOpts ++ secretNames.map (parseOne e),
          recordNames e secretNames originalSecretNames) := by
  induction secretNames generalizing secretOpts originalSecretNames with
  | nil => simp [setLoop, recordNames]
  | cons n rest ih =>
    obtain ⟨opt, hs⟩ := h n (List.mem_cons_self _ _)
    have hs2 : e.secretOptSet
        ("source=" ++ e.ProjectSpecificName n ++ ",target=/var/openfaas/secrets/" ++ n)
          = .ok opt := hs
    have hp : parseOne e n = opt := by
      simp only [parseOne, hs]
    simp only [setLoop, hs2]
    rw [ih _ _ (fun m hm => h m (List.mem_cons_of_mem _ hm)), List.map_cons, hp]
    simp [recordNames]

theorem readsSource_name (e : Env) (n : String) (opt : SecretReference)
    (hr : readsSource e n = true) (hs : e.secretOptSet (optionString e n) = .ok opt) :
    opt.SecretName = e.ProjectSpecificName n := by
  simpa [readsSource, hs] using hr

theorem parsesOption_spec (e : Env) (n : String) (hp : parsesOption e n = true) :
    e.secretOptSet (optionString e n) = .ok (parseOne e n)
      ∧ (parseOne e n).SecretName = e.ProjectSpecificName n
      ∧ (parseOne e n).File.map (fun f => f.Name) = some ("/var/openfaas/secrets/" ++ n) := by
  unfold parsesOption at hp
  unfold parseOne
  cases hs : e.secretOptSet (optionString e n) with
  | error err => simp [hs] at hp
  | ok opt =>
    simp only [hs, decide_eq_true_eq] at hp
    exact ⟨rfl, hp.1, hp.2⟩

theorem foundLoop_eq (secrets : List Secret) (foundSecrets : GoMap String)
    (foundSecretNames : List String) :
    foundLoop secrets foundSecrets foundSecretNames
      = (secrets.foldl
          (fun m s => mapAssign m (mapIndex s.Spec.Labels openFaasSecretNameLabel) s.ID)
          foundSecrets,
        foundSecretNames ++ nameLabels secrets) := by
  induction secrets generalizing foundSecrets foundSecretNames with
  | nil => simp [foundLoop, nameLabels]
  | cons s rest ih => simp [foundLoop, ih, nameLabels]

theorem foundLoop_carried (secrets : List Secret) (name : String)
    (h : ∃ s ∈ secrets, mapIndex s.Spec.Labels openFaasSecretNameLabel = name) :
    ∃ s ∈ secrets, mapIndex s.Spec.Labels openFaasSecretNameLabel = name
      ∧ lastCarrier secrets name = some s
      ∧ mapLookup (foundLoop secrets [] []).1 name = some s.ID := by
  rw [foundLoop_eq]
  obtain ⟨s, hs, hk, hf, hl⟩ := mapLookup_foldl_present
    (fun s : Secret => mapIndex s.Spec.Labels openFaasSecretNameLabel) (fun s => s.ID)
    secrets [] name h
  exact ⟨s, hs, hk, hf, hl⟩

theorem foundLoop_absent (secrets : List Secret) (name : String)
    (h : ∀ s ∈ secrets, mapIndex s.Spec.Labels openFaasSecretNameLabel ≠ name) :
    mapLookup (foundLoop secrets [] []).1 name = none := by
  rw [foundLoop_eq]
  exact mapLookup_foldl_absent
    (fun s : Secret => mapIndex s.Spec.Labels openFaasSecretNameLabel) (fun s => s.ID)
    secrets [] name h

theorem markAll_marked (l : List SecretReference) (requestedSecrets : GoMap Bool)
    (name : String) (h : ∃ o ∈ l, o.SecretName = name) :
    mapLookup (markAll l requestedSecrets) name = some true := by
  obtain ⟨_, _, _, _, hl⟩ := mapLookup_foldl_present
    (fun o : SecretReference => o.SecretName) (fun _ => true) l requestedSecrets name h
  exact hl

theorem resolveLoop_ok_inv (originalSecretNames foundSecrets : GoMap String)
    (foundSecretNames : List String) (l : List SecretReference)
    (requestedSecrets : GoMap Bool) (values refs : List SecretReference)
    (h : resolveLoop originalSecretNames foundSecrets foundSecretNames l requestedSecrets values
      = .ok refs) :
    (l.map (fun o => o.SecretName)).Nodup
      ∧ (∀ o ∈ l, mapLookup requestedSecrets o.SecretName = none)
      ∧ (∀ o ∈ l, ∃ id,
          mapLookup foundSecrets (mapIndex originalSecretNames o.SecretName) = some id)
      ∧ refs = values ++ l.map (withID originalSecretNames foundSecrets) := by
  induction l generalizing requestedSecrets values with
  | nil =>
    simp only [resolveLoop, Except.ok.injEq] at h
    simp [h]
  | cons o rest ih =>
    simp only [resolveLoop] at h
    cases hreq : mapLookup requestedSecrets o.SecretName with
    | some b => simp [hreq] at h
    | none =>
      simp only [hreq] at h
      cases hfound : mapLookup foundSecrets (mapIndex originalSecretNames o.SecretName) with
      | none => simp [hfound] at h
      | some id =>
        simp only [hfound] at h
        obtain ⟨h1, h2, h3, h4⟩ := ih _ _ h
        have hne : ∀ o1 ∈ rest, o1.SecretName ≠ o.SecretName := by
          intro o1 ho1 heq
          have := h2 o1 ho1
          rw [heq, mapLookup_mapAssign_same] at this
          cases this
        refine ⟨?_, ?_, ?_, ?_⟩
        · rw [List.map_cons, List.nodup_cons]
          refine ⟨?_, h1⟩
          intro hmem
          obtain ⟨o1, ho1, heq⟩ := List.mem_map.mp hmem
          exact hne o1 ho1 heq
        · intro o1 ho1
          rcases List.mem_cons.mp ho1 with h5 | h5
          · subst h5
            exact hreq
          · have := h2 o1 h5
            rw [mapLookup_mapAssign_other _ _ _ _ (hne o1 h5)] at this
            exact this
        · intro o1 ho1
          rcases List.mem_cons.mp ho1 with h5 | h5
          · subst h5
            exact ⟨id, hfound⟩
          · exact h3 o1 h5
        · rw [h4, List.map_cons]
          simp [withID, hfound]

theorem resolveLoop_prefix (originalSecretNames foundSecrets : GoMap String)
    (foundSecretNames : List String) (l1 l2 : List SecretReference)
    (requestedSecrets : GoMap Bool) (values : List SecretReference)
    (hnodup : (l1.map (fun o => o.SecretName)).Nodup)
    (hfresh : ∀ o ∈ l1, mapLookup requestedSecrets o.SecretName = none)
    (hfound : ∀ o ∈ l1, ∃ id,
      mapLookup foundSecrets (mapIndex originalSecretNames o.SecretName) = some id) :
    resolveLoop originalSecretNames foundSecrets foundSecretNames (l1 ++ l2) requestedSecrets
        values
      = resolveLoop originalSecretNames foundSecrets foundSecretNames l2
          (markAll l1 requestedSecrets)
          (values ++ l1.map (withID originalSecretNames foundSecrets)) := by
  induction l1 generalizing requestedSecrets values with
  | nil => simp [markAll]
  | cons o rest ih =>
    obtain ⟨id, hid⟩ := hfound o (List.mem_cons_self _ _)
    have hreq := hfresh o (List.mem_cons_self _ _)
    rw [List.map_cons, List.nodup_cons] at hnodup
    have hne : ∀ o1 ∈ rest, o1.SecretName ≠ o.SecretName := by
      intro o1 ho1 heq
      exact hnodup.1 (List.mem_map.mpr ⟨o1, ho1, heq⟩)
    rw [List.cons_append]
    simp only [resolveLoop, hreq, hid]
    rw [ih _ _ hnodup.2]
    · simp [markAll, withID, hid]
    · intro o1 ho1
      rw [mapLookup_mapAssign_other _ _ _ _ (hne o1 ho1)]
      exact hfresh o1 (List.mem_cons_of_mem _ ho1)
    · intro o1 ho1
      exact hfound o1 (List.mem_cons_of_mem _ ho1)

theorem recordNames_injective (e : Env) (secretNames : List String) (n : String)
    (hn : n ∈ secretNames)
    (hinj : ∀ m ∈ secretNames, e.ProjectSpecificName m = e.ProjectSpecificName n → m = n) :
    mapIndex (recordNames e secretNames []) (e.ProjectSpecificName n) = n := by
  obtain ⟨m, hm, hk, _, hl⟩ := mapLookup_foldl_present
    (fun n : String => e.ProjectSpecificName n) (fun n => n) secretNames []
    (e.ProjectSpecificName n) ⟨n, hn, rfl⟩
  have hmn := hinj m hm hk
  subst hmn
  unfold mapIndex recordNames
  rw [hl]
  rfl

/-- What `makeSecretsArray` computes for a non-empty request, loop by loop. -/
theorem makeSecretsArray_unfold (e : Env) (c : SecretAPIClient σ) (secretNames : List String)
    (w : World σ) (hne : secretNames ≠ []) :
    (makeSecretsArray e c secretNames w).1
      = match setLoop e secretNames [] [] with
        | .error err => .error err
        | .ok (secretOpts, originalSecretNames) =>
          match (c.SecretList ⟨filterArgs secretOpts⟩ w.orch).1 with
          | .error err => .error err
          | .ok secrets =>
            resolveLoop originalSecretNames (foundLoop secrets [] []).1
              (foundLoop secrets [] []).2 secretOpts [] [] := by
  have hlen : ¬ secretNames.length = 0 := fun h0 => hne (List.length_eq_zero.mp h0)
  unfold makeSecretsArray
  simp only [hlen, if_false]
  cases setLoop e secretNames [] [] with
  | error err => rfl
  | ok pair =>
    obtain ⟨secretOpts, originalSecretNames⟩ := pair
    simp only [callSecretList]
    cases (c.SecretList ⟨filterArgs secretOpts⟩ w.orch).1 <;> rfl

/-- A successful resolution of a non-empty request, taken apart. -/
theorem makeSecretsArray_ok (e : Env) (c : SecretAPIClient σ) (secretNames : List String)
    (w : World σ) (refs : List SecretReference) (hne : secretNames ≠ [])
    (hok : (makeSecretsArray e c secretNames w).1 = .ok refs) :
    ∃ secrets,
      setLoop e secretNames [] []
          = .ok (secretNames.map (parseOne e), recordNames e secretNames [])
      ∧ (∀ n ∈ secretNames, e.secretOptSet (optionString e n) = .ok (parseOne e n))
      ∧ (c.SecretList ⟨filterArgs (secretNames.map (parseOne e))⟩ w.orch).1 = .ok secrets
      ∧ resolveLoop (recordNames e secretNames []) (foundLoop secrets [] []).1
          (foundLoop secrets [] []).2 (secretNames.map (parseOne e)) [] [] = .ok refs := by
  rw [makeSecretsArray_unfold e c secretNames w hne] at hok
  cases hset : setLoop e secretNames [] [] with
  | error err => simp [hset] at hok
  | ok pair =>
    obtain ⟨secretOpts, originalSecretNames⟩ := pair
    obtain ⟨h1, h2, h3⟩ := setLoop_ok e secretNames [] [] _ _ hset
    simp only [List.nil_append] at h1
    subst h1 h2
    simp only [hset] at hok
    cases hlist : (c.SecretList ⟨filterArgs (secretNames.map (parseOne e))⟩ w.orch).1 with
    | error err => simp [hlist] at hok
    | ok secrets =>
      simp only [hlist] at hok
      exact ⟨secrets, rfl, h3, rfl, hok⟩

theorem filterArgs_parsed (e : Env) (secretNames : List String)
    (h : ∀ n ∈ secretNames, (parseOne e n).SecretName = e.ProjectSpecificName n) :
    filterArgs (secretNames.map (parseOne e)) = nameFilters e secretNames := by
  unfold filterArgs nameFilters
  rw [List.foldl_map]
  apply List.foldl_ext
  intro args n hn
  rw [h n hn]

/-- A successful resolution of a non-empty request whose names `Set` reads as written:
the physical names are pairwise distinct, every requested name is carried by a listed
secret, and the result is the parsed options, in request order, each with the identifier
of the last listed carrier of its name. -/
theorem makeSecretsArray_ok_read (e : Env) (c : SecretAPIClient σ) (secretNames : List String)
    (w : World σ) (refs : List SecretReference) (hne : secretNames ≠ [])
    (hset : ∀ n ∈ secretNames, readsSource e n = true)
    (hok : (makeSecretsArray e c secretNames w).1 = .ok refs) :
    ∃ secrets,
      (c.SecretList ⟨nameFilters e secretNames⟩ w.orch).1 = .ok secrets
      ∧ (secretNames.map e.ProjectSpecificName).Nodup
      ∧ refs = secretNames.map (fun n =>
          withID (recordNames e secretNames []) (foundLoop secrets [] []).1 (parseOne e n))
      ∧ ∀ n ∈ secretNames,
          (parseOne e n).SecretName = e.ProjectSpecificName n
          ∧ mapIndex (recordNames e secretNames []) (e.ProjectSpecificName n) = n
          ∧ ∃ s ∈ secrets, mapIndex s.Spec.Labels openFaasSecretNameLabel = n
              ∧ lastCarrier secrets n = some s
              ∧ mapLookup (foundLoop secrets [] []).1 n = some s.ID := by
  obtain ⟨secrets, _, hacc, hlist, hres⟩ := makeSecretsArray_ok e c secretNames w refs hne hok
  have hsn : ∀ n ∈ secretNames, (parseOne e n).SecretName = e.ProjectSpecificName n :=
    fun n hn => readsSource_name e n _ (hset n hn) (hacc n hn)
  obtain ⟨hnodup, _, hfound, hrefs⟩ := resolveLoop_ok_inv _ _ _ _ _ _ _ hres
  have hmap : (secretNames.map (parseOne e)).map (fun o => o.SecretName)
      = secretNames.map e.ProjectSpecificName := by
    rw [List.map_map]
    exact List.map_congr_left (fun n hn => hsn n hn)
  rw [hmap] at hnodup
  have hinj := List.inj_on_of_nodup_map hnodup
  have horig : ∀ n ∈ secretNames,
      mapIndex (recordNames e secretNames []) (e.ProjectSpecificName n) = n :=
    fun n hn => recordNames_injective e secretNames n hn (fun m hm heq => hinj hm hn heq)
  rw [filterArgs_parsed e secretNames hsn] at hlist
  refine ⟨secrets, hlist, hnodup, ?_, ?_⟩
  · rw [hrefs, List.nil_append, List.map_map]
    rfl
  · intro n hn
    refine ⟨hsn n hn, horig n hn, ?_⟩
    obtain ⟨id, hid⟩ := hfound (parseOne e n) (List.mem_map.mpr ⟨n, hn, rfl⟩)
    rw [hsn n hn, horig n hn] at hid
    rcases foundLoop_lookup secrets [] [] n id hid with h1 | ⟨s, hs, _, hlab⟩
    · simp [mapLookup] at h1
    · exact foundLoop_carried secrets n ⟨s, hs, hlab⟩

/-! ## Theorems: all-or-nothing resolution -/

theorem makeSecretsArray_two_notFound (e : Env) (c : SecretAPIClient σ) (w : World σ)
    (A B : String) (secrets : List Secret)
    (hset : ∀ n ∈ [A, B], readsSource e n = true)
    (hacc : ∀ n ∈ [A, B], ∃ opt, e.secretOptSet (optionString e n) = .ok opt)
    (hlist : (c.SecretList ⟨nameFilters e [A, B]⟩ w.orch).1 = .ok secrets)
    (hA : ∃ s ∈ secrets, mapIndex s.Spec.Labels openFaasSecretNameLabel = A)
    (hB : ∀ s ∈ secrets, mapIndex s.Spec.Labels openFaasSecretNameLabel ≠ B) :
    (makeSecretsArray e c [A, B] w).1
      = .error ("secret not found: " ++ B ++ "; possible choices:\n"
          ++ fmtStrings (nameLabels secrets)) := by
  have hsn : ∀ n ∈ [A, B], (parseOne e n).SecretName = e.ProjectSpecificName n := by
    intro n hn
    obtain ⟨opt, ho⟩ := hacc n hn
    have hp : parseOne e n = opt := by simp only [parseOne, ho]
    rw [hp]
    exact readsSource_name e n opt (hset n hn) ho
  have hsA := hsn A (by simp)
  have hsB := hsn B (by simp)
  have hfB : mapLookup (foundLoop secrets [] []).1 B = none := foundLoop_absent secrets B hB
  obtain ⟨s, _, _, _, hfA⟩ := foundLoop_carried secrets A hA
  have hnames : (foundLoop secrets [] []).2 = nameLabels secrets := by
    rw [foundLoop_eq]
    simp
  have horigB : mapIndex (recordNames e [A, B] []) (e.ProjectSpecificName B) = B := by
    simp [recordNames, mapIndex, mapLookup_mapAssign_same]
  rw [makeSecretsArray_unfold e c [A, B] w (by simp), setLoop_of_accepted e [A, B] [] [] hacc]
  simp only [List.nil_append]
  rw [filterArgs_parsed e [A, B] hsn, hlist]
  simp only [List.map_cons, List.map_nil, hnames]
  by_cases hAB : e.ProjectSpecificName A = e.ProjectSpecificName B
  · have horigA : mapIndex (recordNames e [A, B] []) (e.ProjectSpecificName A) = B := by
      rw [hAB]
      exact horigB
    simp only [resolveLoop, hsA, mapLookup, horigA, hfB]
  · have horigA : mapIndex (recordNames e [A, B] []) (e.ProjectSpecificName A) = A := by
      simp [recordNames, mapIndex, mapLookup_mapAssign_same,
        mapLookup_mapAssign_other _ _ _ _ hAB]
    have hreq : mapLookup (mapAssign ([] : GoMap Bool) (e.ProjectSpecificName A) true)
        (e.ProjectSpecificName B) = none := by
      rw [mapLookup_mapAssign_other _ _ _ _ (fun h => hAB h.symm)]
      rfl
    simp only [resolveLoop, hsA, hsB, mapLookup, horigA, horigB, hfA, hfB, hreq]
    simp only [hAB, if_false]

/-- For requested names whose option string `Set` reads as written, a successful result
has one reference per requested name, and for a non-empty request it exists only if every
requested name is carried by a listed secret; for [A, B] with A carried and B not, the
result is the secret-not-found error naming B. -/
theorem resolution_all_or_nothing (e : Env) (c : SecretAPIClient σ) (secretNames : List String)
    (w : World σ) (hset : ∀ n ∈ secretNames, readsSource e n = true) :
    (∀ refs, (makeSecretsArray e c secretNames w).1 = .ok refs →
        refs.length = secretNames.length
          ∧ (secretNames ≠ [] →
              ∃ secrets, (c.SecretList ⟨nameFilters e secretNames⟩ w.orch).1 = .ok secrets
                ∧ ∀ n ∈ secretNames,
                    ∃ s ∈ secrets, mapIndex s.Spec.Labels openFaasSecretNameLabel = n))
    ∧ (∀ secrets, (c.SecretList ⟨nameFilters e secretNames⟩ w.orch).1 = .ok secrets →
        (∃ n ∈ secretNames,
          ∀ s ∈ secrets, mapIndex s.Spec.Labels openFaasSecretNameLabel ≠ n) →
        ∃ err, (makeSecretsArray e c secretNames w).1 = .error err)
    ∧ (∀ A B secrets, secretNames = [A, B] →
        (∀ n ∈ secretNames, ∃ opt, e.secretOptSet (optionString e n) = .ok opt) →
        (c.SecretList ⟨nameFilters e secretNames⟩ w.orch).1 = .ok secrets →
        (∃ s ∈ secrets, mapIndex s.Spec.Labels openFaasSecretNameLabel = A) →
        (∀ s ∈ secrets, mapIndex s.Spec.Labels openFaasSecretNameLabel ≠ B) →
        (makeSecretsArray e c secretNames w).1
          = .error ("secret not found: " ++ B ++ "; possible choices:\n"
              ++ fmtStrings (nameLabels secrets))) := by
  refine ⟨?_, ?_, ?_⟩
  · intro refs hok
    by_cases hne : secretNames = []
    · subst hne
      simp only [makeSecretsArray, List.length_nil, if_true, Except.ok.injEq] at hok
      subst hok
      exact ⟨rfl, fun h => absurd rfl h⟩
    · obtain ⟨secrets, hlist, _, hrefs, hall⟩ :=
        makeSecretsArray_ok_read e c secretNames w refs hne hset hok
      refine ⟨by rw [hrefs, List.length_map], fun _ => ⟨secrets, hlist, ?_⟩⟩
      intro n hn
      obtain ⟨_, _, s, hs, hlab, _, _⟩ := hall n hn
      exact ⟨s, hs, hlab⟩
  · intro secrets hlist hmissing
    obtain ⟨n, hn, hnone⟩ := hmissing
    have hne : secretNames ≠ [] := List.ne_nil_of_mem hn
    cases hres : (makeSecretsArray e c secretNames w).1 with
    | error err => exact ⟨err, rfl⟩
    | ok refs =>
      obtain ⟨secrets1, hlist1, _, _, hall⟩ :=
        makeSecretsArray_ok_read e c secretNames w refs hne hset hres
      rw [hlist] at hlist1
      cases hlist1
      obtain ⟨_, _, s, hs, hlab, _, _⟩ := hall n hn
      exact absurd hlab (hnone s hs)
  · intro A B secrets hnames hacc hlist hA hB
    subst hnames
    exact makeSecretsArray_two_notFound e c w A B secrets hset hacc hlist hA hB

/-- C12 (the code at the failing input): in the orchestrator model, under project p, the
single requested name `a,source=b` is carried by no stored secret, so the resolution must
fail; yet `makeSecretsArray` succeeds with a reference. The name goes unescaped into the
option string, `Set` reads it with source b, no logical name is recorded under b, and the
lookup under the empty name falls on the stored secret b, which has no secret-name
label. -/
theorem makeSecretsArray_injected_name :
    (["a,source=b"] : List String) ≠ []
      ∧ (∀ s ∈ strayListing, mapIndex s.Spec.Labels openFaasSecretNameLabel ≠ "a,source=b")
      ∧ (swarmClient.SecretList ⟨filterArgs [parseOne (sampleEnv "p") "a,source=b"]⟩
          strayListing).1 = .ok strayListing
      ∧ (makeSecretsArray (sampleEnv "p") swarmClient ["a,source=b"]
          ⟨strayListing, []⟩).1
        = .ok [⟨some ⟨"/var/openfaas/secrets/a", "0", "0", 292⟩, "id9", "b"⟩] := by
  decide

/-! ## Theorems: duplicate detection -/

/-- A request list in which some name occurs more than once never resolves successfully,
whatever `Set` does. When `Set` accepts each option string and reads it as written,
physical names of distinct requested names differ, the listing succeeds, and the entries
before the second occurrence of a name A are pairwise distinct and each carried by a listed
secret, the result is the duplicate-secret-target error naming A. -/
theorem duplicate_detection (e : Env) (c : SecretAPIClient σ) (secretNames : List String)
    (w : World σ) :
    (¬ secretNames.Nodup → ∀ refs, (makeSecretsArray e c secretNames w).1 ≠ .ok refs)
    ∧ (∀ pre A rest secrets, secretNames = pre ++ A :: rest → A ∈ pre → pre.Nodup →
        (∀ n ∈ secretNames, parsesOption e n = true) →
        (∀ m ∈ secretNames, ∀ n ∈ secretNames,
          e.ProjectSpecificName m = e.ProjectSpecificName n → m = n) →
        (c.SecretList ⟨nameFilters e secretNames⟩ w.orch).1 = .ok secrets →
        (∀ n ∈ pre, ∃ s ∈ secrets, mapIndex s.Spec.Labels openFaasSecretNameLabel = n) →
        (makeSecretsArray e c secretNames w).1
          = .error ("duplicate secret target for " ++ A ++ " not allowed")) := by
  constructor
  · intro hdup refs hok
    have hne : secretNames ≠ [] := by
      intro h
      subst h
      exact hdup List.nodup_nil
    obtain ⟨secrets, _, _, _, hres⟩ := makeSecretsArray_ok e c secretNames w refs hne hok
    obtain ⟨hnodup, _, _, _⟩ := resolveLoop_ok_inv _ _ _ _ _ _ _ hres
    rw [List.map_map] at hnodup
    exact hdup (List.Nodup.of_map _ hnodup)
  · intro pre A rest secrets hnames hA hpre hparse hinj hlist hcarried
    have hne : secretNames ≠ [] := by
      rw [hnames]
      simp
    have hsn : ∀ n ∈ secretNames, (parseOne e n).SecretName = e.ProjectSpecificName n :=
      fun n hn => (parsesOption_spec e n (hparse n hn)).2.1
    have hacc : ∀ n ∈ secretNames, ∃ opt, e.secretOptSet (optionString e n) = .ok opt :=
      fun n hn => ⟨_, (parsesOption_spec e n (hparse n hn)).1⟩
    have horig : ∀ n ∈ secretNames,
        mapIndex (recordNames e secretNames []) (e.ProjectSpecificName n) = n :=
      fun n hn => recordNames_injective e secretNames n hn (fun m hm heq => hinj m hm n hn heq)
    have hsub : ∀ n ∈ pre, n ∈ secretNames := by
      intro n hn
      rw [hnames]
      exact List.mem_append_left _ hn
    have hAmem : A ∈ secretNames := hsub A hA
    rw [makeSecretsArray_unfold e c secretNames w hne,
      setLoop_of_accepted e secretNames [] [] hacc]
    simp only [List.nil_append]
    rw [filterArgs_parsed e secretNames hsn, hlist]
    simp only
    have hsplit : secretNames.map (parseOne e)
        = pre.map (parseOne e) ++ (parseOne e A :: rest.map (parseOne e)) := by
      rw [hnames]
      simp
    rw [hsplit, resolveLoop_prefix]
    · have hmarked : mapLookup (markAll (pre.map (parseOne e)) [])
          (parseOne e A).SecretName = some true :=
        markAll_marked _ _ _ ⟨parseOne e A, List.mem_map.mpr ⟨A, hA, rfl⟩, rfl⟩
      rw [hsn A hAmem] at hmarked
      simp only [resolveLoop, hsn A hAmem, horig A hAmem, hmarked]
    · rw [List.map_map]
      apply List.Nodup.map_on _ hpre
      intro x hx y hy hxy
      simp only [Function.comp] at hxy
      rw [hsn x (hsub x hx), hsn y (hsub y hy)] at hxy
      exact hinj x (hsub x hx) y (hsub y hy) hxy
    · intro o _
      rfl
    · intro o ho
      obtain ⟨n, hn, hno⟩ := List.mem_map.mp ho
      subst hno
      rw [hsn n (hsub n hn), horig n (hsub n hn)]
      obtain ⟨s, _, _, _, hl⟩ := foundLoop_carried secrets n (hcarried n hn)
      exact ⟨s.ID, hl⟩

/-- C13 (the code at the failing input): in the orchestrator model the name A =
`a,source=b` is stored for project p, beside a secret stored as b without secret-name
label. The request [A] resolves, so the first entry of [A, A] resolves, and the request
[A, A] fails with the duplicate error; but the message, built from the logical name
recorded under the parsed name b, names the empty string and not A. -/
theorem makeSecretsArray_injected_duplicate :
    (∃ s ∈ injectedListing, mapIndex s.Spec.Labels openFaasSecretNameLabel = "a,source=b"
        ∧ mapIndex s.Spec.Labels (sampleEnv "p").ProjectLabel = "p")
      ∧ (makeSecretsArray (sampleEnv "p") swarmClient ["a,source=b"]
          ⟨injectedListing, []⟩).1
        = .ok [⟨some ⟨"/var/openfaas/secrets/a", "0", "0", 292⟩, "id9", "b"⟩]
      ∧ (makeSecretsArray (sampleEnv "p") swarmClient ["a,source=b", "a,source=b"]
          ⟨injectedListing, []⟩).1
        = .error "duplicate secret target for  not allowed"
      ∧ (makeSecretsArray (sampleEnv "p") swarmClient ["a,source=b", "a,source=b"]
          ⟨injectedListing, []⟩).1
        ≠ .error "duplicate secret target for a,source=b not allowed" := by
  decide

/-! ## Theorems: successful resolution -/

theorem withID_fields (originalSecretNames foundSecrets : GoMap String) (o : SecretReference) :
    (withID originalSecretNames foundSecrets o).SecretName = o.SecretName
      ∧ (withID originalSecretNames foundSecrets o).File = o.File
      ∧ (withID originalSecretNames foundSecrets o).SecretID
          = (mapLookup foundSecrets (mapIndex originalSecretNames o.SecretName)).getD "" :=
  ⟨rfl, rfl, rfl⟩

/-- C14: for pairwise distinct requested names that are free of option-syntax separators
(`Set` accepts each option string and reads source and target as written), whose physical
names are pairwise distinct, and each of which is carried by a secret of the listing,
`makeSecretsArray` succeeds with one reference per requested name, in request order; the
reference for name n has `SecretName = ProjectSpecificName(n)`, mount target
`/var/openfaas/secrets/` followed by n, and the identifier of the listed secret carrying n
(the last one in listing order, should several carry it). -/
theorem resolution_success (e : Env) (c : SecretAPIClient σ) (secretNames : List String)
    (w : World σ) (secrets : List Secret)
    (hparse : ∀ n ∈ secretNames, parsesOption e n = true)
    (hnodup : secretNames.Nodup)
    (hinj : ∀ m ∈ secretNames, ∀ n ∈ secretNames,
      e.ProjectSpecificName m = e.ProjectSpecificName n → m = n)
    (hlist : (c.SecretList ⟨nameFilters e secretNames⟩ w.orch).1 = .ok secrets)
    (hcarried : ∀ n ∈ secretNames,
      ∃ s ∈ secrets, mapIndex s.Spec.Labels openFaasSecretNameLabel = n) :
    ∃ refs, (makeSecretsArray e c secretNames w).1 = .ok refs
      ∧ refs.length = secretNames.length
      ∧ List.Forall₂ (fun n ref =>
          ref.SecretName = e.ProjectSpecificName n
          ∧ ref.File.map (fun f => f.Name) = some ("/var/openfaas/secrets/" ++ n)
          ∧ ∃ s ∈ secrets, mapIndex s.Spec.Labels openFaasSecretNameLabel = n
              ∧ lastCarrier secrets n = some s
              ∧ ref.SecretID = s.ID) secretNames refs := by
  by_cases hne : secretNames = []
  · subst hne
    exact ⟨[], by simp [makeSecretsArray], rfl, List.Forall₂.nil⟩
  · have hsn : ∀ n ∈ secretNames, (parseOne e n).SecretName = e.ProjectSpecificName n :=
      fun n hn => (parsesOption_spec e n (hparse n hn)).2.1
    have hacc : ∀ n ∈ secretNames, ∃ opt, e.secretOptSet (optionString e n) = .ok opt :=
      fun n hn => ⟨_, (parsesOption_spec e n (hparse n hn)).1⟩
    have horig : ∀ n ∈ secretNames,
        mapIndex (recordNames e secretNames []) (e.ProjectSpecificName n) = n :=
      fun n hn => recordNames_injective e secretNames n hn (fun m hm heq => hinj m hm n hn heq)
    have hres : (makeSecretsArray e c secretNames w).1
        = .ok ((secretNames.map (parseOne e)).map
            (withID (recordNames e secretNames []) (foundLoop secrets [] []).1)) := by
      rw [makeSecretsArray_unfold e c secretNames w hne,
        setLoop_of_accepted e secretNames [] [] hacc]
      simp only [List.nil_append]
      rw [filterArgs_parsed e secretNames hsn, hlist]
      simp only
      have happ : secretNames.map (parseOne e) = secretNames.map (parseOne e) ++ [] := by simp
      rw [happ, resolveLoop_prefix]
      · simp [resolveLoop]
      · rw [List.map_map]
        apply List.Nodup.map_on _ hnodup
        intro x hx y hy hxy
        simp only [Function.comp] at hxy
        rw [hsn x hx, hsn y hy] at hxy
        exact hinj x hx y hy hxy
      · intro o _
        rfl
      · intro o ho
        obtain ⟨n, hn, hno⟩ := List.mem_map.mp ho
        subst hno
        rw [hsn n hn, horig n hn]
        obtain ⟨s, _, _, _, hl⟩ := foundLoop_carried secrets n (hcarried n hn)
        exact ⟨s.ID, hl⟩
    refine ⟨_, hres, by simp, ?_⟩
    rw [List.map_map, List.forall₂_map_right_iff, List.forall₂_same]
    intro n hn
    obtain ⟨s, hs, hlab, hlast, hl⟩ := foundLoop_carried secrets n (hcarried n hn)
    refine ⟨hsn n hn, (parsesOption_spec e n (hparse n hn)).2.2, s, hs, hlab, hlast, ?_⟩
    simp only [Function.comp, withID, hsn n hn, horig n hn, hl]
    rfl

theorem resolution_success_witness :
    ∃ refs, (makeSecretsArray (sampleEnv "acme") swarmClient ["db-pass"]
          ⟨acmeListing, []⟩).1 = .ok refs
      ∧ refs.length = ["db-pass"].length
      ∧ List.Forall₂ (fun n ref =>
          ref.SecretName = (sampleEnv "acme").ProjectSpecificName n
          ∧ ref.File.map (fun f => f.Name) = some ("/var/openfaas/secrets/" ++ n)
          ∧ ∃ s ∈ acmeListing, mapIndex s.Spec.Labels openFaasSecretNameLabel = n
              ∧ lastCarrier acmeListing n = some s
              ∧ ref.SecretID = s.ID) ["db-pass"] refs :=
  resolution_success (sampleEnv "acme") swarmClient ["db-pass"] ⟨acmeListing, []⟩ acmeListing
    (by decide) (by decide) (by decide) (by decide) (by decide)

/-! ## Theorems: identifier and name of a resolved reference -/

/-- For a request whose names `Set` reads as written, each reference in a successful
result of `makeSecretsArray` has `SecretName = ProjectSpecificName(n)` for a requested name
n and carries the identifier of a secret, in the listing returned for the name filter,
whose secret-name label is n. Stored names are not compared. -/
theorem resolved_ids_by_label (e : Env) (c : SecretAPIClient σ) (secretNames : List String)
    (w : World σ) (refs : List SecretReference)
    (hset : ∀ n ∈ secretNames, readsSource e n = true)
    (hok : (makeSecretsArray e c secretNames w).1 = .ok refs) :
    ∀ ref ∈ refs,
      ∃ secrets, (c.SecretList ⟨nameFilters e secretNames⟩ w.orch).1 = .ok secrets
        ∧ (∃ n ∈ secretNames, ref.SecretName = e.ProjectSpecificName n
            ∧ ∃ s ∈ secrets, s.ID = ref.SecretID
                ∧ mapIndex s.Spec.Labels openFaasSecretNameLabel = n)
        ∧ ((∀ s ∈ secrets, s.Spec.Name
              = e.ProjectSpecificName (mapIndex s.Spec.Labels openFaasSecretNameLabel)) →
            ∃ s ∈ secrets, s.ID = ref.SecretID ∧ s.Spec.Name = ref.SecretName) := by
  intro ref href
  have hne : secretNames ≠ [] := by
    intro h
    subst h
    simp only [makeSecretsArray, List.length_nil, if_true, Except.ok.injEq] at hok
    subst hok
    cases href
  obtain ⟨secrets, hlist, _, hrefs, hall⟩ :=
    makeSecretsArray_ok_read e c secretNames w refs hne hset hok
  rw [hrefs] at href
  obtain ⟨n, hn, hnr⟩ := List.mem_map.mp href
  obtain ⟨hsn, horig, s, hs, hlab, _, hl⟩ := hall n hn
  subst hnr
  have hid : s.ID
      = (withID (recordNames e secretNames []) (foundLoop secrets [] []).1
          (parseOne e n)).SecretID := by
    simp only [withID, hsn, horig, hl]
    rfl
  refine ⟨secrets, hlist, ⟨n, hn, hsn, s, hs, hid, hlab⟩, ?_⟩
  intro hstored
  refine ⟨s, hs, hid, ?_⟩
  rw [hstored s hs, hlab]
  exact hsn.symm

/-! ## Theorems: the sample decoder on names without separators -/

theorem splitChars_no_sep (sep : Char) (l cur : List Char) (h : sep ∉ l) :
    splitChars sep l cur = [cur ++ l] := by
  induction l generalizing cur with
  | nil => simp [splitChars]
  | cons ch rest ih =>
    have h1 : ch ≠ sep := fun heq => h (heq ▸ List.mem_cons_self _ _)
    have h2 : sep ∉ rest := fun hm => h (List.mem_cons_of_mem _ hm)
    simp [splitChars, h1, ih _ h2]

theorem splitChars_at_sep (sep : Char) (a b cur : List Char) (h : sep ∉ a) :
    splitChars sep (a ++ sep :: b) cur = (cur ++ a) :: splitChars sep b [] := by
  induction a generalizing cur with
  | nil => simp [splitChars]
  | cons ch rest ih =>
    have h1 : ch ≠ sep := fun heq => h (heq ▸ List.mem_cons_self _ _)
    have h2 : sep ∉ rest := fun hm => h (List.mem_cons_of_mem _ hm)
    simp [splitChars, h1, ih _ h2]

theorem cutEq_at (k v : List Char) (h : '=' ∉ k) : cutEq (k ++ '=' :: v) = some (k, v) := by
  induction k with
  | nil => simp [cutEq]
  | cons ch rest ih =>
    have h1 : ch ≠ '=' := fun heq => h (heq ▸ List.mem_cons_self _ _)
    have h2 : '=' ∉ rest := fun hm => h (List.mem_cons_of_mem _ hm)
    simp [cutEq, h1, ih h2]

theorem separatorFree_spec (s : String) (h : separatorFree s = true) :
    ',' ∉ s.data ∧ s.data.any (fun ch => ch = '"' || ch = '\n' || ch = '\r') = false := by
  unfold separatorFree at h
  rw [List.all_eq_true] at h
  constructor
  · intro hm
    have := h _ hm
    simp at this
  · rw [Bool.eq_false_iff]
    intro hany
    rw [List.any_eq_true] at hany
    obtain ⟨ch, hch, hp⟩ := hany
    have := h ch hch
    simp only [Bool.or_eq_true, decide_eq_true_eq] at hp
    rcases hp with (hp | hp) | hp <;> simp [hp] at this

theorem separatorFree_append (a b : String) (ha : separatorFree a = true)
    (hb : separatorFree b = true) : separatorFree (a ++ b) = true := by
  unfold separatorFree at *
  rw [String.data_append, List.all_append, ha, hb]
  rfl

theorem sampleSecretOptSet_option (src tgt : String) (hs : separatorFree src = true)
    (ht : separatorFree tgt = true) (hne : src ≠ "") (hnt : tgt ≠ "") :
    sampleSecretOptSet ("source=" ++ src ++ ",target=" ++ tgt)
      = .ok ⟨some ⟨tgt, "0", "0", 0o444⟩, "", src⟩ := by
  obtain ⟨hs1, hs2⟩ := separatorFree_spec src hs
  obtain ⟨ht1, ht2⟩ := separatorFree_spec tgt ht
  have hdata : ("source=" ++ src ++ ",target=" ++ tgt).data
      = ("source=".data ++ src.data) ++ ',' :: ("target=".data ++ tgt.data) := by
    simp only [String.data_append]
    simp
  have hany : ("source=" ++ src ++ ",target=" ++ tgt).data.any
      (fun ch => ch = '"' || ch = '\n' || ch = '\r') = false := by
    rw [hdata]
    simp only [List.any_append, List.any_cons, hs2, ht2]
    decide
  have hnil : ("source=" ++ src ++ ",target=" ++ tgt).data ≠ [] := by
    rw [hdata]
    simp
  have hsep : ',' ∉ "source=".data ++ src.data := by
    intro hm
    rcases List.mem_append.mp hm with h | h
    · revert h
      decide
    · exact hs1 h
  have hsep2 : ',' ∉ "target=".data ++ tgt.data := by
    intro hm
    rcases List.mem_append.mp hm with h | h
    · revert h
      decide
    · exact ht1 h
  have hfields : splitChars ',' ("source=" ++ src ++ ",target=" ++ tgt).data []
      = ["source=".data ++ src.data, "target=".data ++ tgt.data] := by
    rw [hdata, splitChars_at_sep _ _ _ _ hsep, splitChars_no_sep _ _ _ hsep2]
    simp
  have hcut1 : cutEq ("source=".data ++ src.data) = some ("source".data, src.data) :=
    cutEq_at "source".data src.data (by decide)
  have hcut2 : cutEq ("target=".data ++ tgt.data) = some ("target".data, tgt.data) :=
    cutEq_at "target".data tgt.data (by decide)
  have hk1 : String.mk ("source".data.map Char.toLower) = "source" := by decide
  have hk2 : String.mk ("target".data.map Char.toLower) = "target" := by decide
  have hk3 : ¬ ("target" = "source" ∨ "target" = "src") := by decide
  have hk4 : "source".data ≠ [] := by decide
  have hk5 : "target".data ≠ [] := by decide
  unfold sampleSecretOptSet
  simp only [hany, hnil, hfields, sampleSetFields, hcut1, hcut2, hk1, hk2, hk3, hk4, hk5]
  simp [hne, hnt]

/-- Under the sample environment, every requested name free of separators, in a project
whose identity is free of separators, has its option string accepted and read as
written. -/
theorem sampleEnv_parsesOption (project n : String) (hp : separatorFree project = true)
    (hn : separatorFree n = true) : parsesOption (sampleEnv project) n = true := by
  have hsrc : separatorFree (project ++ "_" ++ n) = true :=
    separatorFree_append _ _ (separatorFree_append _ _ hp (by decide)) hn
  have htgt : separatorFree ("/var/openfaas/secrets/" ++ n) = true :=
    separatorFree_append _ _ (by decide) hn
  have hne : project ++ "_" ++ n ≠ "" := by
    intro h
    have := congrArg String.length h
    simp only [String.length_append] at this
    have h1 : ("_" : String).length = 1 := by decide
    have h0 : ("" : String).length = 0 := by decide
    omega
  have hnt : "/var/openfaas/secrets/" ++ n ≠ "" := by
    intro h
    have := congrArg String.length h
    simp only [String.length_append] at this
    have h1 : ("/var/openfaas/secrets/" : String).length = 22 := by decide
    have h0 : ("" : String).length = 0 := by decide
    omega
  have hopt : optionString (sampleEnv project) n
      = "source=" ++ (project ++ "_" ++ n) ++ ",target=" ++ ("/var/openfaas/secrets/" ++ n) := by
    have hlit : (",target=/var/openfaas/secrets/" : String)
        = ",target=" ++ "/var/openfaas/secrets/" := by decide
    simp only [optionString, sampleEnv, hlit, String.append_assoc]
  unfold parsesOption
  rw [hopt]
  have hset : (sampleEnv project).secretOptSet = sampleSecretOptSet := rfl
  rw [hset, sampleSecretOptSet_option _ _ hsrc htgt hne hnt]
  simp [sampleEnv]

theorem parsesOption_readsSource (e : Env) (n : String) (h : parsesOption e n = true) :
    readsSource e n = true := by
  unfold parsesOption at h
  unfold readsSource
  cases hs : e.secretOptSet (optionString e n) with
  | error err => rfl
  | ok opt =>
    simp only [hs, decide_eq_true_eq] at h
    simp [h.1]

/-! ## Theorems: the resolver across projects -/

/-- C4 (the code at the failing input): in the orchestrator model, with states produced by
`createNewSecret` alone. (1) Project p2_n created n; project p2, which owns no secret,
resolves [n] to that secret's ID, although its project label is p2_n, while
`getSecretWithName` under p2 refuses the same secret with 500. (2) Project p2 created n and
then p2_n created n; p2 resolves [n] to the ID of the secret of p2_n and not to its own.
The resolver never compares the project label. -/
theorem makeSecretsArray_foreign_owner :
    (foreignOnlyWorld.orch
        = [⟨"x", 0, ⟨"p2_n_n", [("com.openfaas.secret", "n"), ("project", "p2_n")], "w"⟩⟩]
      ∧ (makeSecretsArray (sampleEnv "p2") swarmClient ["n"] foreignOnlyWorld).1
          = .ok [⟨some ⟨"/var/openfaas/secrets/n", "0", "0", 292⟩, "x", "p2_n"⟩]
      ∧ (¬ ∃ s ∈ foreignOnlyWorld.orch, s.ID = "x"
          ∧ mapIndex s.Spec.Labels (sampleEnv "p2").ProjectLabel
              = (sampleEnv "p2").NFFaaSDockerProject)
      ∧ (getSecretWithName (sampleEnv "p2") swarmClient "n" foreignOnlyWorld).1
          = ⟨none, 500,
              some "found secret with name: n, but it doesn't have label: project == p2"⟩)
    ∧ (ownAndForeignWorld.orch
        = [⟨"x", 0, ⟨"p2_n", [("com.openfaas.secret", "n"), ("project", "p2")], "v"⟩⟩,
           ⟨"xx", 0, ⟨"p2_n_n", [("com.openfaas.secret", "n"), ("project", "p2_n")], "w"⟩⟩]
      ∧ (makeSecretsArray (sampleEnv "p2") swarmClient ["n"] ownAndForeignWorld).1
          = .ok [⟨some ⟨"/var/openfaas/secrets/n", "0", "0", 292⟩, "xx", "p2_n"⟩]
      ∧ (¬ ∃ s ∈ ownAndForeignWorld.orch, s.ID = "xx"
          ∧ mapIndex s.Spec.Labels (sampleEnv "p2").ProjectLabel
              = (sampleEnv "p2").NFFaaSDockerProject)) := by
  decide

/-- C16 (the code at the failing input): in the orchestrator model, project p created a
(stored as p_a, ID x) and project p_a created a (stored as p_a_a, ID xx). For the request
[a] under p the listing for the name filter p_a returns both secrets, both labelled a, and
`makeSecretsArray` returns `SecretName` p_a with `SecretID` xx: no listed secret with this
identifier is stored as p_a, while the secret stored as p_a has the other identifier. -/
theorem makeSecretsArray_foreign_name :
    prefixWorld.orch
        = [⟨"x", 0, ⟨"p_a", [("com.openfaas.secret", "a"), ("project", "p")], "v"⟩⟩,
           ⟨"xx", 0, ⟨"p_a_a", [("com.openfaas.secret", "a"), ("project", "p_a")], "w"⟩⟩]
      ∧ (swarmClient.SecretList ⟨nameFilters (sampleEnv "p") ["a"]⟩ prefixWorld.orch).1
          = .ok prefixWorld.orch
      ∧ (makeSecretsArray (sampleEnv "p") swarmClient ["a"] prefixWorld).1
          = .ok [⟨some ⟨"/var/openfaas/secrets/a", "0", "0", 292⟩, "xx", "p_a"⟩]
      ∧ (¬ ∃ s ∈ prefixWorld.orch, s.ID = "xx" ∧ s.Spec.Name = "p_a")
      ∧ (∃ s ∈ prefixWorld.orch, s.ID = "x" ∧ s.Spec.Name = "p_a") := by
  decide

end Handlers
